import Mathlib

/-!
Verification of the dazeus-go client core: frame codec, transport buffer,
subscription registry, scope encoder and the request/response correlation
engine, shallowly embedded from the Go sources.

Conventions of the embedding:
* Go `map[string]interface{}` values decoded from JSON are modelled by the
  inductive `JVal`; a decoded `Message` is an association list of fields.
  JSON numbers (Go `float64`) are modelled by integers, the subset the
  claims exercise.
* Go byte slices are `List Nat` with each element a byte value.
* Fallible Go functions returning `(T, error)` become `Except` or `Option`.
* Machine-integer overflow is made explicit where the source can overflow
  (the frame-length accumulator uses wrap-around 64-bit arithmetic).
-/

namespace DZ

/-- A decoded JSON value as produced by `json.Unmarshal` into a Go
`interface` value: strings, numbers (restricted to integers in this
model), booleans, null, and nested arrays. -/
inductive JVal where
  | str (s : String)
  | num (n : Int)
  | bool (b : Bool)
  | null
  | arr (xs : List JVal)

/-- A `Message` is a decoded JSON object: Go `map[string]interface{}`,
modelled as an association list from field names to values. -/
def Message := List (String × JVal)

/-- Field lookup in a `Message`: Go `message["key"]`, yielding `none` for
an absent key (Go's nil interface). -/
def getField (key : String) : List (String × JVal) → Option JVal
  | [] => none
  | (k, v) :: rest => if k = key then some v else getField key rest

/-- Classification used by the correlation engine: a frame with an
`event` field present (Go `msg["event"] != nil`) is a push event.  A JSON
`null` value decodes to Go's nil interface, so it also counts as absent. -/
def isEvent (m : Message) : Bool :=
  match getField "event" m with
  | none => false
  | some .null => false
  | some _ => true

/-! ### Scope encoder (`scope.go`) -/

/-- `Scope` from `scope.go`: optional network, receiver and sender
restrictions (`*string` fields, `nil` = unset). -/
structure Scope where
  network : Option String
  receiver : Option String
  sendr : Option String

/-- `Scope.IsAll` from `scope.go`: true iff all three fields are nil. -/
def Scope.IsAll (scope : Scope) : Bool :=
  scope.network = none && scope.receiver = none && scope.sendr = none

/-- `Scope.ToSlice` from `scope.go`: the property/permission encoding.
Nothing is emitted unless the network is set; the sender is only emitted
when the receiver is also set. -/
def Scope.ToSlice (scope : Scope) : List String :=
  match scope.network with
  | none => []
  | some n =>
    match scope.receiver with
    | none => [n]
    | some r =>
      match scope.sendr with
      | none => [n, r]
      | some sd => [n, r, sd]

/-- `Scope.ToCommandSlice` from `scope.go`: the command-subscription
encoding.  Fails (with an empty error string, as in the source) when both
receiver and sender are set; otherwise emits the network if set, then a
`false` flag plus the receiver or the sender. -/
def Scope.ToCommandSlice (scope : Scope) : Except String (List JVal) :=
  if scope.receiver.isSome && scope.sendr.isSome then
    .error ""
  else
    .ok (match scope.network with
      | none => []
      | some n =>
        .str n ::
          ((match scope.receiver with
            | none => []
            | some r => [.bool false, .str r]) ++
           (match scope.sendr with
            | none => []
            | some sd => [.bool false, .str sd])))

/-! ### Event decoding (`makeStringArray`, `makeEvent`) -/

/-- Outcomes of `makeEvent` other than success.  `oob` marks a Go
out-of-bounds slice index, i.e. a runtime panic rather than a returned
error; the other three are the returned `error` values of the source. -/
inductive MEErr where
  | noEventType
  | notArray
  | nonStringParam
  | oob

/-- Element loop of `makeStringArray`: every element of the decoded array
must be a string. -/
def toStrList : List JVal → Except MEErr (List String)
  | [] => .ok []
  | .str s :: rest =>
    match toStrList rest with
    | .ok strs => .ok (s :: strs)
    | .error e => .error e
  | _ :: _ => .error .nonStringParam

/-- `makeStringArray` from the shared helpers: the field value must be a
JSON array of strings; an absent field or any other shape is the
"Could not find expected array" error. -/
def makeStringArray : Option JVal → Except MEErr (List String)
  | some (.arr xs) => toStrList xs
  | _ => .error .notArray

/-- The decoded `Event` structure (the `DaZeus` back-pointer of the Go
struct is omitted: it carries no data). -/
structure Event where
  event : String
  params : List String
  network : String
  channel : String
  chsender : String
  command : String

/-- Shared tail of `makeEvent` after the positional elements have been
stripped: the `COMMAND` special case consumes one more element from the
front of the remainder (`params[0]` on the stripped slice, a panic when
it is empty), then the `Event` value is built. -/
def makeEventTail (t : String) (rest : List String) (n sd c : String) :
    Except MEErr Event :=
  if t = "COMMAND" then
    match rest with
    | [] => .error .oob
    | c0 :: rest2 =>
      .ok { event := t, params := rest2, network := n, channel := c,
            chsender := sd, command := c0 }
  else
    .ok { event := t, params := rest, network := n, channel := c,
          chsender := sd, command := "" }

/-- `makeEvent` from the event module: reads the tag from the `event`
field, decodes `params` as a string array, then reads `params[0]`
unconditionally (a panic on an empty array), strips up to three leading
positional elements (`params[1:]`, `params[2:]` or `params[3:]` by
length), and finishes via `makeEventTail`. -/
def makeEvent (message : Message) : Except MEErr Event :=
  match getField "event" message with
  | some (.str t) =>
    match makeStringArray (getField "params" message) with
    | .error e => .error e
    | .ok params =>
      match params with
      | [] => .error .oob
      | [n] => makeEventTail t [] n "" ""
      | [n, sd] => makeEventTail t [] n sd ""
      | n :: sd :: c :: rest => makeEventTail t rest n sd c
  | _ => .error .noEventType

/-! ### Success validation (`waitForSuccessResponse`, lines 154-167) -/

/-- The validation applied by `waitForSuccessResponse` to a correlated
response: the `success` field must be present (a JSON null decodes to a
nil interface, hence counts as absent), must be a boolean, and must be
true; each failure is a distinct error string from the source. -/
def expectSuccess (response : Message) : Except String Message :=
  match getField "success" response with
  | none => .error "No success field found"
  | some .null => .error "No success field found"
  | some (.bool true) => .ok response
  | some (.bool false) => .error "Server responded with failure"
  | some _ => .error "No boolean in success field"

/-! ### Frame codec and transport buffer (`checkMessage`, `read`, `write`) -/

/-- Wrap-around into a signed 64-bit integer, the arithmetic of Go's
`int` on 64-bit targets.  The literals are 2 to the 63rd and 2 to the
64th power, written out so that concrete evaluation folds them. -/
def wrap64 (n : Int) : Int :=
  (n + 9223372036854775808) % 18446744073709551616 - 9223372036854775808

/-- The header scan loop of `checkMessage`: walk the buffer from the
front, accumulating ASCII digits into the length value (with Go `int`
overflow semantics), skipping CR and LF, and stopping at the first other
byte.  Returns the number of bytes consumed and the accumulated length. -/
def scanHeader : List Nat → Int → Nat × Int
  | [], len => (0, len)
  | c :: rest, len =>
    if 48 ≤ c ∧ c ≤ 57 then
      match scanHeader rest (wrap64 (wrap64 (len * 10) + ((c : Int) - 48))) with
      | (offset, out) => (offset + 1, out)
    else if c = 10 ∨ c = 13 then
      match scanHeader rest len with
      | (offset, out) => (offset + 1, out)
    else
      (0, len)

/-- `checkMessage` from the connection module: scan the length header and
report `(found, offset, messageLen)`; a frame is found only when the
scanned length is positive and the buffer already holds
`offset + messageLen` bytes. -/
def checkMessage (buf : List Nat) : Bool × Nat × Int :=
  match scanHeader buf 0 with
  | (offset, messageLen) =>
    if messageLen > 0 ∧ (buf.length : Int) ≥ (offset : Int) + messageLen then
      (true, offset, messageLen)
    else
      (false, 0, 0)

/-- ASCII decimal representation of a natural number, as produced by Go's
`strconv.Itoa` for non-negative values. -/
def natDigits (n : Nat) : List Nat :=
  if n < 10 then [48 + n] else natDigits (n / 10) ++ [48 + n % 10]
decreasing_by exact Nat.div_lt_self (by omega) (by omega)

/-- `write` from the connection module, restricted to its framing: the
bytes put on the wire are the ASCII decimal byte length of the JSON body
immediately followed by the body, with no separator or padding. -/
def encodeFrame (body : List Nat) : List Nat :=
  natDigits body.length ++ body

/-- The frame-extraction step of `read`: when `checkMessage` reports a
complete frame, drop the `offset` header bytes and take the `messageLen`
body bytes, leaving the rest in the buffer.  When no complete frame is
available the source reads more bytes from the socket instead (`none`
here). -/
def readBuffer (buf : List Nat) : Option (List Nat × List Nat) :=
  match checkMessage buf with
  | (true, offset, messageLen) =>
    some ((buf.drop offset).take messageLen.toNat,
          buf.drop (offset + messageLen.toNat))
  | (false, _, _) => none

/-! ### JSON body codec

The source serializes a `Message` with `json.Marshal` and decodes bodies
with `json.Unmarshal` (standard library).  The byte-level model below
follows Go's encoder: strings are byte sequences (escaping `"` `\` and
control characters, and HTML-escaping `<` `>` `&` as lowercase `\u00xx`),
numbers are written in plain decimal (the model restricts JSON numbers to
the integers, the subset the protocol uses), object keys appear in the
canonical sorted order `json.Marshal` produces for a Go map, and the
decoder is a recursive-descent JSON parser over the same grammar. -/

/-- Serializable JSON value: strings and object keys are byte sequences
as in Go. -/
inductive SJson where
  | str (bs : List Nat)
  | num (n : Int)
  | bool (b : Bool)
  | null
  | arr (xs : List SJson)
  | obj (fields : List (List Nat × SJson))

/-- Lowercase hexadecimal digit, as in Go's `\u00xx` escapes. -/
def hexDigit (d : Nat) : Nat :=
  if d < 10 then 48 + d else 87 + d

/-- Escaping of one string byte, following Go's JSON encoder with its
default HTML escaping. -/
def escByte (c : Nat) : List Nat :=
  if c = 34 then [92, 34]
  else if c = 92 then [92, 92]
  else if c = 10 then [92, 110]
  else if c = 13 then [92, 114]
  else if c = 9 then [92, 116]
  else if c < 32 ∨ c = 60 ∨ c = 62 ∨ c = 38 then
    [92, 117, 48, 48, hexDigit (c / 16), hexDigit (c % 16)]
  else [c]

/-- Escape every byte of a string body. -/
def escBytes : List Nat → List Nat
  | [] => []
  | c :: rest => escByte c ++ escBytes rest

/-- A serialized JSON string: quote, escaped bytes, quote. -/
def serStr (bs : List Nat) : List Nat :=
  34 :: (escBytes bs ++ [34])

/-- A serialized JSON integer in plain decimal with an optional minus
sign. -/
def serInt (n : Int) : List Nat :=
  if n < 0 then 45 :: natDigits n.natAbs else natDigits n.toNat

mutual

/-- Serialization of a JSON value, canonical form without whitespace. -/
def serVal : SJson → List Nat
  | .str bs => serStr bs
  | .num n => serInt n
  | .bool true => [116, 114, 117, 101]
  | .bool false => [102, 97, 108, 115, 101]
  | .null => [110, 117, 108, 108]
  | .arr xs => 91 :: (serElems xs ++ [93])
  | .obj fs => 123 :: (serFields fs ++ [125])

/-- Comma-separated serialization of array elements. -/
def serElems : List SJson → List Nat
  | [] => []
  | [x] => serVal x
  | x :: xs => serVal x ++ 44 :: serElems xs

/-- Comma-separated serialization of object fields. -/
def serFields : List (List Nat × SJson) → List Nat
  | [] => []
  | [(k, v)] => serStr k ++ 58 :: serVal v
  | (k, v) :: fs => serStr k ++ 58 :: serVal v ++ 44 :: serFields fs

end

/-- Whether a byte is a hexadecimal digit. -/
def isHex (c : Nat) : Bool :=
  if (48 ≤ c ∧ c ≤ 57) ∨ (97 ≤ c ∧ c ≤ 102) ∨ (65 ≤ c ∧ c ≤ 70) then true else false

/-- Value of a hexadecimal digit byte. -/
def hexVal (c : Nat) : Nat :=
  if 48 ≤ c ∧ c ≤ 57 then c - 48
  else if 97 ≤ c ∧ c ≤ 102 then c - 87
  else c - 55

/-- Prepend one decoded byte to a string-body parse result. -/
def consStr (c : Nat) : Option (List Nat × List Nat) → Option (List Nat × List Nat)
  | some (s, r) => some (c :: s, r)
  | none => none

/-- Parse the body of a JSON string after the opening quote, undoing the
escapes (Go stores the decoded code point; for the `\u00xx` escapes the
encoder emits this is the byte itself). -/
def parseStrBody : List Nat → Option (List Nat × List Nat)
  | [] => none
  | c :: rest =>
    if c = 34 then some ([], rest)
    else if c = 92 then
      match rest with
      | [] => none
      | e :: rest2 =>
        if e = 34 then consStr 34 (parseStrBody rest2)
        else if e = 92 then consStr 92 (parseStrBody rest2)
        else if e = 47 then consStr 47 (parseStrBody rest2)
        else if e = 98 then consStr 8 (parseStrBody rest2)
        else if e = 102 then consStr 12 (parseStrBody rest2)
        else if e = 110 then consStr 10 (parseStrBody rest2)
        else if e = 114 then consStr 13 (parseStrBody rest2)
        else if e = 116 then consStr 9 (parseStrBody rest2)
        else if e = 117 then
          match rest2 with
          | h1 :: h2 :: h3 :: h4 :: rest3 =>
            if isHex h1 && isHex h2 && isHex h3 && isHex h4 then
              consStr (hexVal h1 * 4096 + hexVal h2 * 256 + hexVal h3 * 16 + hexVal h4)
                (parseStrBody rest3)
            else none
          | _ => none
        else none
    else consStr c (parseStrBody rest)

/-- Greedily parse decimal digits into an accumulator. -/
def parseDigitsAux : List Nat → Nat → Nat × List Nat
  | [], acc => (acc, [])
  | c :: rest, acc =>
    if 48 ≤ c ∧ c ≤ 57 then parseDigitsAux rest (acc * 10 + (c - 48))
    else (acc, c :: rest)

mutual

/-- Recursive-descent JSON parser for one value; the fuel argument only
bounds the recursion depth. -/
def parseVal : Nat → List Nat → Option (SJson × List Nat)
  | 0, _ => none
  | _ + 1, [] => none
  | fuel + 1, c :: bs =>
    if c = 116 then
      match bs with
      | 114 :: 117 :: 101 :: rest => some (.bool true, rest)
      | _ => none
    else if c = 102 then
      match bs with
      | 97 :: 108 :: 115 :: 101 :: rest => some (.bool false, rest)
      | _ => none
    else if c = 110 then
      match bs with
      | 117 :: 108 :: 108 :: rest => some (.null, rest)
      | _ => none
    else if c = 34 then
      match parseStrBody bs with
      | some (s, rest) => some (.str s, rest)
      | none => none
    else if c = 45 then
      match bs with
      | d :: _ =>
        if 48 ≤ d ∧ d ≤ 57 then
          let p := parseDigitsAux bs 0
          some (.num (-(p.1 : Int)), p.2)
        else none
      | [] => none
    else if c = 91 then
      match bs with
      | [] => none
      | b :: bs2 =>
        if b = 93 then some (.arr [], bs2)
        else
          match parseElems fuel (b :: bs2) with
          | some (xs, rest) => some (.arr xs, rest)
          | none => none
    else if c = 123 then
      match bs with
      | [] => none
      | b :: bs2 =>
        if b = 125 then some (.obj [], bs2)
        else
          match parseFields fuel (b :: bs2) with
          | some (fs, rest) => some (.obj fs, rest)
          | none => none
    else if 48 ≤ c ∧ c ≤ 57 then
      let p := parseDigitsAux (c :: bs) 0
      some (.num (p.1 : Int), p.2)
    else none

/-- Parse array elements after the opening bracket of a nonempty array,
consuming the closing bracket. -/
def parseElems : Nat → List Nat → Option (List SJson × List Nat)
  | 0, _ => none
  | fuel + 1, bs =>
    match parseVal fuel bs with
    | none => none
    | some (v, rest) =>
      match rest with
      | 44 :: r2 =>
        match parseElems fuel r2 with
        | some (xs, r3) => some (v :: xs, r3)
        | none => none
      | 93 :: r2 => some ([v], r2)
      | _ => none

/-- Parse object fields after the opening brace of a nonempty object,
consuming the closing brace. -/
def parseFields : Nat → List Nat → Option (List (List Nat × SJson) × List Nat)
  | 0, _ => none
  | fuel + 1, bs =>
    match bs with
    | 34 :: bs2 =>
      match parseStrBody bs2 with
      | none => none
      | some (k, rest) =>
        match rest with
        | 58 :: rest2 =>
          match parseVal fuel rest2 with
          | none => none
          | some (v, rest3) =>
            match rest3 with
            | 44 :: r4 =>
              match parseFields fuel r4 with
              | some (fs, r5) => some ((k, v) :: fs, r5)
              | none => none
            | 125 :: r4 => some ([(k, v)], r4)
            | _ => none
        | _ => none
    | _ => none

end

/-- Byte-lexicographic strict order on keys, the order `json.Marshal`
sorts Go map keys into. -/
def ltBytes : List Nat → List Nat → Bool
  | [], [] => false
  | [], _ :: _ => true
  | _ :: _, [] => false
  | a :: as, b :: bs => if a < b then true else if a = b then ltBytes as bs else false

/-- Strictly ascending adjacent keys. -/
def sortedKeys : List (List Nat) → Bool
  | [] => true
  | [_] => true
  | k1 :: k2 :: rest => ltBytes k1 k2 && sortedKeys (k2 :: rest)

mutual

/-- Well-formedness of a model value as the image of a Go value:
string bytes are bytes, numbers are integers exactly representable in a
`float64` (hence printed in plain decimal by Go), and object keys are in
the canonical strictly sorted order of `json.Marshal`. -/
def wfVal : SJson → Bool
  | .str bs => bs.all (· < 256)
  | .num n => n.natAbs ≤ 2 ^ 53
  | .bool _ => true
  | .null => true
  | .arr xs => wfElems xs
  | .obj fs => wfFields fs && sortedKeys (fs.map Prod.fst)

/-- Well-formedness of array elements. -/
def wfElems : List SJson → Bool
  | [] => true
  | x :: xs => wfVal x && wfElems xs

/-- Well-formedness of object fields. -/
def wfFields : List (List Nat × SJson) → Bool
  | [] => true
  | (k, v) :: fs => k.all (· < 256) && wfVal v && wfFields fs

end

mutual

/-- Fuel bound for parsing a serialized value. -/
def jsize : SJson → Nat
  | .str _ => 1
  | .num _ => 1
  | .bool _ => 1
  | .null => 1
  | .arr xs => 1 + jsizeElems xs
  | .obj fs => 1 + jsizeFields fs

/-- Fuel bound for parsing serialized array elements. -/
def jsizeElems : List SJson → Nat
  | [] => 0
  | x :: xs => 1 + jsize x + jsizeElems xs

/-- Fuel bound for parsing serialized object fields. -/
def jsizeFields : List (List Nat × SJson) → Nat
  | [] => 0
  | (_, v) :: fs => 1 + jsize v + jsizeFields fs

end

/-- The full outbound path of `write` for a `Message`: serialize the
body, then frame it with the ASCII decimal length. -/
def writeFrame (m : SJson) : List Nat :=
  encodeFrame (serVal m)

/-- The full inbound path of `read` for a complete buffer: extract one
frame and decode its body as a single JSON value (Go's `json.Unmarshal`
rejects trailing data, hence the empty-remainder requirement). -/
def decodeFrame (buf : List Nat) : Option SJson :=
  match readBuffer buf with
  | none => none
  | some (body, _) =>
    match parseVal body.length body with
    | some (v, []) => some v
    | _ => none

/-! ### Correlation engine (`waitForResponse`, `waitForEvent`) and registry

The engine is embedded as a fuel-indexed interpreter over an explicit
connection state.  The inbound byte stream is pre-decoded into the script
`input : List Message` (the sequence of frames `read` would deliver); a
run that would block forever on `read`, or abort the call with an error,
is `none`.  User-supplied Go event handlers are arbitrary closures that
may issue further blocking calls; they are embedded as `HandlerProg`
programs.  The fields `dispatchDepths` and `handlerResponses` are ghost
instrumentation only ever appended to: they record the value of
`callDepth` at each invocation of `handleEvent` and every response
handed to a call made from inside a handler, and influence nothing. -/

/-- A user event handler: either returns, or writes a request, blocks on
`waitForResponse`, and continues with the correlated response. -/
inductive HandlerProg where
  | ret
  | call (req : Message) (k : Message → HandlerProg)

/-- A registered listener (`listener` struct in the source): event tag,
command filter (used only for the `COMMAND` tag) and the handler. -/
structure Listener where
  event : String
  command : String
  handler : Event → HandlerProg

/-- Connection state of the `DaZeus` struct: call depth, pending-response
queue, the inbound script, the listener registry keyed by handle, the
next handle, the log of written requests, and the two ghost fields. -/
structure DZState where
  callDepth : Nat
  responseQueue : List Message
  input : List Message
  listeners : List (Nat × Listener)
  lastHandle : Nat
  sent : List Message
  dispatchDepths : List Nat
  handlerResponses : List Message

mutual

/-- Run one handler program; a `call` writes the request and blocks in
`waitForResponse` for its correlated response. -/
def runProg : Nat → DZState → HandlerProg → Option DZState
  | _, s, .ret => some s
  | 0, _, .call _ _ => none
  | fuel + 1, s, .call req k =>
    match waitForResponse fuel { s with sent := s.sent ++ [req] } with
    | none => none
    | some (m, s1) =>
      runProg fuel { s1 with handlerResponses := s1.handlerResponses ++ [m] } (k m)

/-- The dispatch loop of `handleEvent`: invoke, in registration order,
every listener whose tag matches (and, for the `COMMAND` tag, whose
command filter matches).  Go map iteration order is unspecified; the
model fixes ascending-handle order. -/
def runListeners : Nat → DZState → Event → List Listener → Option DZState
  | _, s, _, [] => some s
  | 0, _, _, _ :: _ => none
  | fuel + 1, s, evt, l :: ls =>
    if l.event = evt.event ∧ (l.event ≠ "COMMAND" ∨ l.command = evt.command) then
      match runProg fuel s (l.handler evt) with
      | none => none
      | some s1 => runListeners fuel s1 evt ls
    else runListeners fuel s evt ls

/-- `handleEvent` from the event module: decode the message into an
`Event` (a decode error aborts the enclosing call) and dispatch it. -/
def handleEventM : Nat → DZState → Message → Option DZState
  | 0, _, _ => none
  | fuel + 1, s, msg =>
    match makeEvent msg with
    | .error _ => none
    | .ok evt => runListeners fuel s evt (s.listeners.map Prod.snd)

/-- `waitForResponse` from the connection module: read frames in a loop;
an event increments `callDepth` around dispatch and afterwards claims the
head of the queue exactly when the queue is longer than `callDepth`; a
response is returned directly exactly when the queue length equals
`callDepth` and is otherwise appended to the queue. -/
def waitForResponse : Nat → DZState → Option (Message × DZState)
  | 0, _ => none
  | fuel + 1, s =>
    match s.input with
    | [] => none
    | msg :: rest =>
      if isEvent msg then
        match handleEventM fuel
            { s with input := rest, callDepth := s.callDepth + 1,
                     dispatchDepths := s.dispatchDepths ++ [s.callDepth + 1] } msg with
        | none => none
        | some s2 =>
          let s3 : DZState := { s2 with callDepth := s2.callDepth - 1 }
          if s3.responseQueue.length > s3.callDepth then
            match s3.responseQueue with
            | [] => none
            | m :: q => some (m, { s3 with responseQueue := q })
          else waitForResponse fuel s3
      else
        if s.responseQueue.length = s.callDepth then
          some (msg, { s with input := rest })
        else
          waitForResponse fuel { s with input := rest, responseQueue := s.responseQueue ++ [msg] }

end

/-- `waitForEvent` from the connection module, the body of the `Listen`
loop: read one frame, require it to be an event, and dispatch it.  The
source touches `callDepth` nowhere on this path; the ghost field records
the unchanged depth at dispatch. -/
def waitForEvent : Nat → DZState → Option DZState
  | 0, _ => none
  | fuel + 1, s =>
    match s.input with
    | [] => none
    | msg :: rest =>
      if isEvent msg then
        handleEventM fuel
          { s with input := rest, dispatchDepths := s.dispatchDepths ++ [s.callDepth] } msg
      else none

/-- Comparison definition following the words of the specification, which
asserts that the call-depth counter is incremented for the duration of
processing an event also on the `waitForEvent` path; stated only to be
compared with `waitForEvent` as embedded from the source. -/
def waitForEventClaimed : Nat → DZState → Option DZState
  | 0, _ => none
  | fuel + 1, s =>
    match s.input with
    | [] => none
    | msg :: rest =>
      if isEvent msg then
        match handleEventM fuel
            { s with input := rest, callDepth := s.callDepth + 1,
                     dispatchDepths := s.dispatchDepths ++ [s.callDepth + 1] } msg with
        | none => none
        | some s2 => some { s2 with callDepth := s2.callDepth - 1 }
      else none

/-- `write` restricted to the engine level: append the request to the log
of frames put on the wire. -/
def write (s : DZState) (m : Message) : DZState :=
  { s with sent := s.sent ++ [m] }

/-- `waitForSuccessResponse`: correlate a response, then validate its
`success` field via `expectSuccess`. -/
def waitForSuccessResponse (fuel : Nat) (s : DZState) :
    Option (Except String Message × DZState) :=
  match waitForResponse fuel s with
  | none => none
  | some (r, s1) => some (expectSuccess r, s1)

/-- `writeForSuccessResponse`: write a request and await a validated
response. -/
def writeForSuccessResponse (fuel : Nat) (s : DZState) (m : Message) :
    Option (Except String Message × DZState) :=
  waitForSuccessResponse fuel (write s m)

/-- The subscribe request `Subscribe` sends. -/
def subscribeMsg (event : String) : Message :=
  [("do", .str "subscribe"), ("params", .arr [.str event])]

/-- The unsubscribe request `Unsubscribe` sends. -/
def unsubscribeMsg (event : String) : Message :=
  [("do", .str "unsubscribe"), ("params", .arr [.str event])]

/-- The command-subscription request `SubscribeCommand` sends. -/
def commandMsg (command : String) (slice : List JVal) : Message :=
  [("do", .str "command"), ("params", .arr (.str command :: slice))]

/-- `Subscribe` from `event.go`: unconditionally send a subscribe
request for the tag, and only on a validated success response allocate
the next handle and store the listener. -/
def Subscribe (fuel : Nat) (s : DZState) (event : String)
    (handler : Event → HandlerProg) : Option (Except String Nat × DZState) :=
  match writeForSuccessResponse fuel s (subscribeMsg event) with
  | none => none
  | some (.error e, s1) => some (.error e, s1)
  | some (.ok _, s1) =>
    some (.ok s1.lastHandle,
      { s1 with lastHandle := s1.lastHandle + 1,
                listeners := s1.listeners ++
                  [(s1.lastHandle, { event := event, command := "", handler := handler })] })

/-- `SubscribeCommand` from `event.go`: encode the scope first (an
encoding error is returned before any write), then as `Subscribe` with a
command listener. -/
def SubscribeCommand (fuel : Nat) (s : DZState) (command : String)
    (scope : Scope) (handler : Event → HandlerProg) :
    Option (Except String Nat × DZState) :=
  match scope.ToCommandSlice with
  | .error e => some (.error e, s)
  | .ok slice =>
    match writeForSuccessResponse fuel s (commandMsg command slice) with
    | none => none
    | some (.error e, s1) => some (.error e, s1)
    | some (.ok _, s1) =>
      some (.ok s1.lastHandle,
        { s1 with lastHandle := s1.lastHandle + 1,
                  listeners := s1.listeners ++
                    [(s1.lastHandle,
                      { event := "COMMAND", command := command, handler := handler })] })

/-- Registry lookup by handle (Go map indexing). -/
def getListener (h : Nat) : List (Nat × Listener) → Option Listener
  | [] => none
  | (k, l) :: rest => if k = h then some l else getListener h rest

/-- Registry deletion by handle (Go `delete`). -/
def removeListener (h : Nat) : List (Nat × Listener) → List (Nat × Listener)
  | [] => []
  | (k, l) :: rest =>
    if k = h then removeListener h rest else (k, l) :: removeListener h rest

/-- The search loop of `Unsubscribe`: does any remaining listener still
carry this tag? -/
def anyEvent (ev : String) : List (Nat × Listener) → Bool
  | [] => false
  | (_, l) :: rest => if l.event = ev then true else anyEvent ev rest

/-- `Unsubscribe` from `event.go`: an unknown handle is a local error;
otherwise the listener is removed, and for a non-command tag with no
remaining listener of the same tag one unsubscribe request is sent. -/
def Unsubscribe (fuel : Nat) (s : DZState) (handle : Nat) :
    Option (Except String Unit × DZState) :=
  match getListener handle s.listeners with
  | none => some (.error "No listener found", s)
  | some l =>
    let s1 : DZState := { s with listeners := removeListener handle s.listeners }
    if l.event ≠ "COMMAND" then
      if anyEvent l.event s1.listeners then some (.ok (), s1)
      else
        match writeForSuccessResponse fuel s1 (unsubscribeMsg l.event) with
        | none => none
        | some (.error e, s2) => some (.error e, s2)
        | some (.ok _, s2) => some (.ok (), s2)
    else some (.ok (), s1)

/-- Registry operations a client can perform on a connection. -/
inductive Op where
  | sub (event : String) (handler : Event → HandlerProg)
  | subCmd (command : String) (scope : Scope) (handler : Event → HandlerProg)
  | unsub (handle : Nat)

/-- Run a sequence of registry operations, collecting the handles
returned by the successful registrations in order; a blocked connection
stops the run. -/
def runOps (fuel : Nat) : DZState → List Op → DZState × List Nat
  | s, [] => (s, [])
  | s, .sub ev h :: ops =>
    match Subscribe fuel s ev h with
    | none => (s, [])
    | some (.error _, s1) => runOps fuel s1 ops
    | some (.ok hd, s1) =>
      match runOps fuel s1 ops with
      | (s2, hs) => (s2, hd :: hs)
  | s, .subCmd cmd scope h :: ops =>
    match SubscribeCommand fuel s cmd scope h with
    | none => (s, [])
    | some (.error _, s1) => runOps fuel s1 ops
    | some (.ok hd, s1) =>
      match runOps fuel s1 ops with
      | (s2, hs) => (s2, hd :: hs)
  | s, .unsub h :: ops =>
    match Unsubscribe fuel s h with
    | none => (s, [])
    | some (_, s1) => runOps fuel s1 ops

/-- The connection state `ConnectWithLogger` builds: depth 0, empty
queue and registry, and the first handle is 1. -/
def initState (input : List Message) : DZState :=
  { callDepth := 0, responseQueue := [], input := input, listeners := [],
    lastHandle := 1, sent := [], dispatchDepths := [], handlerResponses := [] }

/-! ### Concrete fixtures used by scenario theorems and witnesses -/

/-- A nested request issued from inside an event handler. -/
def exReq : Message := [("get", .str "nick")]

/-- A well-formed PRIVMSG push-event frame. -/
def exEvtMsg : Message :=
  [("event", .str "PRIVMSG"), ("params", .arr [.str "net", .str "user", .str "#chan"])]

/-- A success response carrying distinguishing data, intended for the
outer call of the nesting scenario. -/
def respOuter : Message := [("success", .bool true), ("data", .str "outer")]

/-- A success response carrying distinguishing data, intended for the
inner call of the nesting scenario. -/
def respInner : Message := [("success", .bool true), ("data", .str "inner")]

/-- A bare success response. -/
def okResp : Message := [("success", .bool true)]

/-- A handler that performs one nested blocking call. -/
def callingHandler : Event → HandlerProg := fun _ => .call exReq (fun _ => .ret)

/-- A handler that does nothing. -/
def idleHandler : Event → HandlerProg := fun _ => .ret

/-- A PRIVMSG listener whose handler performs one nested call. -/
def exListener : Listener :=
  { event := "PRIVMSG", command := "", handler := callingHandler }

/-- Nesting scenario with responses arriving in request order: the outer
call's response first, then the inner call's. -/
def stateNested : DZState :=
  { initState [exEvtMsg, respOuter, respInner] with listeners := [(1, exListener)] }

/-- Nesting scenario with the arrival order the specification's scenario
prescribes: the inner call's response first, then the outer call's. -/
def stateClaimOrder : DZState :=
  { initState [exEvtMsg, respInner, respOuter] with listeners := [(1, exListener)] }

/-- Listen-loop scenario: one event whose handler performs a nested
call, followed by that call's response. -/
def stateListen : DZState :=
  { initState [exEvtMsg, okResp] with listeners := [(1, exListener)] }

/-- A PRIVMSG listener whose handler does nothing. -/
def exIdleListener : Listener :=
  { event := "PRIVMSG", command := "", handler := idleHandler }

/-- Count the requests in a log whose `do` field is the given operation
name. -/
def countDoReqs (op : String) : List Message → Nat
  | [] => 0
  | m :: rest =>
    (match getField "do" m with
     | some (.str s) => if s = op then 1 else 0
     | _ => 0) + countDoReqs op rest

end DZ

namespace DZ

/-! ## Theorems -/

/-- C7: `ToCommandSlice` fails exactly when both receiver and sender are
set, succeeds with some (possibly empty) slice otherwise, and inside
`SubscribeCommand` the failure is raised before any write: the state is
returned untouched. -/
theorem toCommandSlice_scope_check (scope : Scope) (fuel : Nat) (s : DZState)
    (cmd : String) (h : Event → HandlerProg) :
    ((∃ e, scope.ToCommandSlice = .error e) ↔
      (scope.receiver.isSome ∧ scope.sendr.isSome)) ∧
    (¬ (scope.receiver.isSome ∧ scope.sendr.isSome) →
      ∃ xs, scope.ToCommandSlice = .ok xs) ∧
    (scope.receiver.isSome → scope.sendr.isSome →
      SubscribeCommand fuel s cmd scope h = some (.error "", s)) := by
  obtain ⟨nw, rc, sd⟩ := scope
  refine ⟨?_, ?_, ?_⟩
  · cases rc <;> cases sd <;> simp [Scope.ToCommandSlice]
  · cases rc <;> cases sd <;> simp [Scope.ToCommandSlice]
  · intro hr hs
    cases rc <;> cases sd <;> simp_all [Scope.ToCommandSlice, SubscribeCommand]

/-- C7 witness: at the scope restricting both receiver and sender, the
encoding fails and `SubscribeCommand` performs no write; at a
receiver-only scope it succeeds. -/
theorem toCommandSlice_scope_check_witness :
    (∃ e, Scope.ToCommandSlice ⟨some "n", some "r", some "s"⟩ = .error e) ∧
    (∃ xs, Scope.ToCommandSlice ⟨some "n", some "r", none⟩ = .ok xs) ∧
    SubscribeCommand 5 (initState []) "c" ⟨some "n", some "r", some "s"⟩ idleHandler =
      some (.error "", initState []) := by
  refine ⟨?_, ?_, ?_⟩
  · exact (toCommandSlice_scope_check ⟨some "n", some "r", some "s"⟩ 5 (initState [])
      "c" idleHandler).1.mpr (by simp)
  · exact (toCommandSlice_scope_check ⟨some "n", some "r", none⟩ 5 (initState [])
      "c" idleHandler).2.1 (by simp)
  · exact (toCommandSlice_scope_check ⟨some "n", some "r", some "s"⟩ 5 (initState [])
      "c" idleHandler).2.2 (by simp) (by simp)

/-- C8 counterexample: the scope with a receiver but no network is not
universal, yet `ToSlice` returns the empty sequence — the receiver is
not encoded, contradicting the claim that every non-universal scope
encodes to the network followed by the receiver. -/
theorem toSlice_counterexample :
    Scope.IsAll ⟨none, some "r", none⟩ = false ∧
    Scope.ToSlice ⟨none, some "r", none⟩ = [] := by
  constructor
  · simp [Scope.IsAll]
  · simp [Scope.ToSlice]

/-- C8 amended: `ToSlice` is empty exactly when the network is unset (in
particular for the universal scope); otherwise it is the network, then
the receiver if set, then the sender only when the receiver is also set
— with the receiver unset the sender is dropped. -/
theorem toSlice_shape (scope : Scope) :
    (scope.network = none → scope.ToSlice = []) ∧
    (∀ n, scope.network = some n → scope.receiver = none → scope.ToSlice = [n]) ∧
    (∀ n r, scope.network = some n → scope.receiver = some r →
      scope.sendr = none → scope.ToSlice = [n, r]) ∧
    (∀ n r sd, scope.network = some n → scope.receiver = some r →
      scope.sendr = some sd → scope.ToSlice = [n, r, sd]) := by
  obtain ⟨nw, rc, sd⟩ := scope
  refine ⟨?_, ?_, ?_, ?_⟩ <;>
    · intros
      simp_all [Scope.ToSlice]

/-- C8 witness: the four shapes at concrete scopes, including the
sender-without-receiver scope collapsing to just the network. -/
theorem toSlice_shape_witness :
    Scope.ToSlice ⟨none, none, none⟩ = [] ∧
    Scope.ToSlice ⟨some "n", none, some "s"⟩ = ["n"] ∧
    Scope.ToSlice ⟨some "n", some "r", none⟩ = ["n", "r"] ∧
    Scope.ToSlice ⟨some "n", some "r", some "s"⟩ = ["n", "r", "s"] := by
  refine ⟨?_, ?_, ?_, ?_⟩
  · exact (toSlice_shape ⟨none, none, none⟩).1 rfl
  · exact (toSlice_shape ⟨some "n", none, some "s"⟩).2.1 "n" rfl rfl
  · exact (toSlice_shape ⟨some "n", some "r", none⟩).2.2.1 "n" "r" rfl rfl rfl
  · exact (toSlice_shape ⟨some "n", some "r", some "s"⟩).2.2.2 "n" "r" "s" rfl rfl rfl

/-- C10: for a message whose `event` field is a string and whose
`params` field decodes to a string array `ps`, the unguarded index
accesses of `makeEvent` stay in bounds exactly when `ps` is nonempty
(and, for the `COMMAND` tag, has at least 4 elements); outside those
bounds the outcome is the out-of-bounds access `oob` — a Go slice-index
panic — rather than a returned error. -/
theorem makeEvent_bounds (m : Message) (t : String) (ps : List String)
    (ht : getField "event" m = some (.str t))
    (hp : makeStringArray (getField "params" m) = .ok ps) :
    (makeEvent m = .error .oob ↔ ps = [] ∨ (t = "COMMAND" ∧ ps.length < 4)) ∧
    (ps ≠ [] → (t = "COMMAND" → 4 ≤ ps.length) → ∃ evt, makeEvent m = .ok evt) := by
  rcases ps with _ | ⟨n, _ | ⟨sd, _ | ⟨c, rest⟩⟩⟩
  · have hm : makeEvent m = .error .oob := by
      unfold makeEvent; rw [ht, hp]
    simp [hm]
  · have hm : makeEvent m = makeEventTail t [] n "" "" := by
      unfold makeEvent; rw [ht, hp]
    by_cases hc : t = "COMMAND" <;> simp [hm, makeEventTail, hc]
  · have hm : makeEvent m = makeEventTail t [] n sd "" := by
      unfold makeEvent; rw [ht, hp]
    by_cases hc : t = "COMMAND" <;> simp [hm, makeEventTail, hc]
  · have hm : makeEvent m = makeEventTail t rest n sd c := by
      unfold makeEvent; rw [ht, hp]
    cases rest with
    | nil => by_cases hc : t = "COMMAND" <;> simp [hm, makeEventTail, hc]
    | cons c0 rest2 =>
      by_cases hc : t = "COMMAND" <;> simp [hm, makeEventTail, hc]

/-- C10 witness: a three-parameter `COMMAND` message panics (the stripped
remainder is empty), while the same message with four parameters decodes
successfully. -/
theorem makeEvent_bounds_witness :
    makeEvent [("event", .str "COMMAND"),
               ("params", .arr [.str "net", .str "user", .str "#chan"])] =
      .error .oob ∧
    (∃ evt, makeEvent [("event", .str "COMMAND"),
               ("params", .arr [.str "net", .str "user", .str "#chan", .str "cmd"])] =
      .ok evt) := by
  constructor
  · exact (makeEvent_bounds _ "COMMAND" ["net", "user", "#chan"] (by rfl) (by rfl)).1.mpr
      (Or.inr (by simp))
  · exact (makeEvent_bounds _ "COMMAND" ["net", "user", "#chan", "cmd"] (by rfl)
      (by rfl)).2 (by simp) (fun _ => by simp)

/-- C4: for every response Message `r` correlated by `waitForResponse`,
the `expectSuccess` layer of `waitForSuccessResponse` turns an absent
`success` field (a decoded JSON `null` is Go's nil interface, i.e.
absent), a non-boolean `success` value and `success = false` into three
pairwise distinct errors, and hands the Message back as data exactly
when `success` is the boolean true. -/
theorem waitForSuccess_validation (fuel : Nat) (s s' : DZState) (r : Message)
    (hw : waitForResponse fuel s = some (r, s')) :
    ((getField "success" r = none ∨ getField "success" r = some .null) →
      waitForSuccessResponse fuel s = some (.error "No success field found", s')) ∧
    (∀ v, getField "success" r = some v → v ≠ .null → (∀ b, v ≠ .bool b) →
      waitForSuccessResponse fuel s = some (.error "No boolean in success field", s')) ∧
    (getField "success" r = some (.bool false) →
      waitForSuccessResponse fuel s = some (.error "Server responded with failure", s')) ∧
    (waitForSuccessResponse fuel s = some (.ok r, s') ↔
      getField "success" r = some (.bool true)) ∧
    (∀ m s2, waitForSuccessResponse fuel s = some (.ok m, s2) →
      m = r ∧ s2 = s' ∧ getField "success" r = some (.bool true)) ∧
    ("No success field found" ≠ "No boolean in success field" ∧
     "No success field found" ≠ "Server responded with failure" ∧
     "No boolean in success field" ≠ "Server responded with failure") := by
  have hws : waitForSuccessResponse fuel s = some (expectSuccess r, s') := by
    unfold waitForSuccessResponse; rw [hw]
  refine ⟨?_, ?_, ?_, ?_, ?_, ?_⟩
  · rintro (h | h) <;> simp [hws, expectSuccess, h]
  · intro v hv hnull hnb
    rcases v with s0 | n0 | b0 | _ | xs
    · simp [hws, expectSuccess, hv]
    · simp [hws, expectSuccess, hv]
    · exact absurd rfl (hnb b0)
    · exact absurd rfl hnull
    · simp [hws, expectSuccess, hv]
  · intro h; simp [hws, expectSuccess, h]
  · constructor
    · intro h
      rcases hgf : getField "success" r with _ | v
      · simp [hws, expectSuccess, hgf] at h
      · rcases v with s0 | n0 | b0 | _ | xs
        · simp [hws, expectSuccess, hgf] at h
        · simp [hws, expectSuccess, hgf] at h
        · cases b0
          · simp [hws, expectSuccess, hgf] at h
          · rfl
        · simp [hws, expectSuccess, hgf] at h
        · simp [hws, expectSuccess, hgf] at h
    · intro h; simp [hws, expectSuccess, h]
  · intro m s2 h
    rcases hgf : getField "success" r with _ | v
    · simp [hws, expectSuccess, hgf] at h
    · rcases v with s0 | n0 | b0 | _ | xs
      · simp [hws, expectSuccess, hgf] at h
      · simp [hws, expectSuccess, hgf] at h
      · cases b0
        · simp [hws, expectSuccess, hgf] at h
        · rw [hws] at h
          simp [expectSuccess, hgf] at h
          exact ⟨h.1.symm, h.2.symm, by simp [hgf]⟩
      · simp [hws, expectSuccess, hgf] at h
      · simp [hws, expectSuccess, hgf] at h
  · refine ⟨?_, ?_, ?_⟩ <;> decide

/-- C4 witness: a direct one-frame script for each of the four outcomes:
missing `success`, string-valued `success`, `success = false`, and
`success = true` handing the message back. -/
theorem waitForSuccess_validation_witness :
    waitForSuccessResponse 1 (initState [[("nick", .str "mybot")]]) =
      some (.error "No success field found", initState []) ∧
    waitForSuccessResponse 1 (initState [[("success", .str "yes")]]) =
      some (.error "No boolean in success field", initState []) ∧
    waitForSuccessResponse 1 (initState [[("success", .bool false)]]) =
      some (.error "Server responded with failure", initState []) ∧
    waitForSuccessResponse 1 (initState [okResp]) = some (.ok okResp, initState []) := by
  refine ⟨?_, ?_, ?_, ?_⟩
  · exact (waitForSuccess_validation 1 (initState [[("nick", .str "mybot")]])
      (initState []) [("nick", .str "mybot")] (by rfl)).1 (Or.inl (by rfl))
  · exact (waitForSuccess_validation 1 (initState [[("success", .str "yes")]])
      (initState []) [("success", .str "yes")] (by rfl)).2.1 (.str "yes") (by rfl)
      (by simp) (by simp)
  · exact (waitForSuccess_validation 1 (initState [[("success", .bool false)]])
      (initState []) [("success", .bool false)] (by rfl)).2.2.1 (by rfl)
  · exact (waitForSuccess_validation 1 (initState [okResp])
      (initState []) okResp (by rfl)).2.2.2.1.mpr (by rfl)

/-- C2 counterexample: two `Subscribe` calls for the same non-command tag
on a fresh connection put two subscribe requests on the wire, not the
exactly one the claim asserts — `Subscribe` sends unconditionally, with
no first-listener check. -/
theorem subscribe_twice_counterexample :
    countDoReqs "subscribe"
      (runOps 2 (initState [okResp, okResp])
        [.sub "PRIVMSG" idleHandler, .sub "PRIVMSG" idleHandler]).1.sent = 2 ∧
    countDoReqs "subscribe"
      (runOps 2 (initState [okResp, okResp])
        [.sub "PRIVMSG" idleHandler, .sub "PRIVMSG" idleHandler]).1.sent ≠ 1 := by
  have h2 : countDoReqs "subscribe"
      (runOps 2 (initState [okResp, okResp])
        [.sub "PRIVMSG" idleHandler, .sub "PRIVMSG" idleHandler]).1.sent = 2 := by rfl
  refine ⟨h2, ?_⟩
  rw [h2]
  decide

/-- C2 amended: every successful `Subscribe` sends exactly one subscribe
request — also when a listener for the tag already exists, so two
registrations send two — while `Unsubscribe` of a non-command listener
sends nothing when another listener still shares the tag and exactly one
unsubscribe request when it was the last one. -/
theorem subscription_request_counts :
    (∀ fuel s ev h r rest, s.input = r :: rest → isEvent r = false →
      s.responseQueue.length = s.callDepth →
      getField "success" r = some (.bool true) →
      ∃ s', Subscribe (fuel + 1) s ev h = some (.ok s.lastHandle, s') ∧
        s'.sent = s.sent ++ [subscribeMsg ev]) ∧
    (∀ fuel s handle l, getListener handle s.listeners = some l →
      l.event ≠ "COMMAND" →
      anyEvent l.event (removeListener handle s.listeners) = true →
      Unsubscribe fuel s handle =
        some (.ok (), { s with listeners := removeListener handle s.listeners })) ∧
    (∀ fuel s handle l r rest, getListener handle s.listeners = some l →
      l.event ≠ "COMMAND" →
      anyEvent l.event (removeListener handle s.listeners) = false →
      s.input = r :: rest → isEvent r = false →
      s.responseQueue.length = s.callDepth →
      getField "success" r = some (.bool true) →
      ∃ s', Unsubscribe (fuel + 1) s handle = some (.ok (), s') ∧
        s'.sent = s.sent ++ [unsubscribeMsg l.event]) := by
  refine ⟨?_, ?_, ?_⟩
  · intro fuel s ev h r rest hi hev hq hgf
    have hwf : waitForResponse (fuel + 1) (write s (subscribeMsg ev)) =
        some (r, { s with sent := s.sent ++ [subscribeMsg ev], input := rest }) := by
      simp [waitForResponse, write, hi, hev, hq]
    have hsucc : expectSuccess r = .ok r := by
      simp [expectSuccess, hgf]
    refine ⟨{ s with
              sent := s.sent ++ [subscribeMsg ev],
              input := rest,
              lastHandle := s.lastHandle + 1,
              listeners := s.listeners ++ [(s.lastHandle, ⟨ev, "", h⟩)] },
            ?_, rfl⟩
    simp [Subscribe, writeForSuccessResponse, waitForSuccessResponse, hwf, hsucc]
  · intro fuel s handle l hl hne hany
    simp [Unsubscribe, hl, hne, hany]
  · intro fuel s handle l r rest hl hne hany hi hev hq hgf
    have hwf : waitForResponse (fuel + 1)
        (write { s with listeners := removeListener handle s.listeners }
          (unsubscribeMsg l.event)) =
        some (r, { s with listeners := removeListener handle s.listeners,
                          sent := s.sent ++ [unsubscribeMsg l.event], input := rest }) := by
      simp [waitForResponse, write, hi, hev, hq]
    have hsucc : expectSuccess r = .ok r := by
      simp [expectSuccess, hgf]
    refine ⟨{ s with
              listeners := removeListener handle s.listeners,
              sent := s.sent ++ [unsubscribeMsg l.event],
              input := rest },
            ?_, rfl⟩
    simp [Unsubscribe, hl, hne, hany, writeForSuccessResponse, waitForSuccessResponse,
      hwf, hsucc]

/-- C2 witness: the three request-count behaviours at concrete states:
one subscribe request for a fresh registration, no unsubscribe request
while a second PRIVMSG listener remains (the sent log stays empty), and
one unsubscribe request for the last PRIVMSG listener. -/
theorem subscription_request_counts_witness :
    (∃ s', Subscribe 1 (initState [okResp]) "PRIVMSG" idleHandler =
        some (.ok 1, s') ∧ s'.sent = [subscribeMsg "PRIVMSG"]) ∧
    (∃ s', Unsubscribe 1
        ({ initState [] with
           listeners := [(1, exIdleListener), (2, exIdleListener)],
           lastHandle := 3 }) 1 =
      some (.ok (), s') ∧ s'.sent = []) ∧
    (∃ s', Unsubscribe 1
        ({ initState [okResp] with
           listeners := [(1, exIdleListener)],
           lastHandle := 2 }) 1 =
      some (.ok (), s') ∧ s'.sent = [unsubscribeMsg "PRIVMSG"]) := by
  refine ⟨?_, ?_, ?_⟩
  · obtain ⟨s', hs', hsent⟩ := subscription_request_counts.1 0 (initState [okResp])
      "PRIVMSG" idleHandler okResp [] rfl rfl rfl rfl
    exact ⟨s', hs', hsent⟩
  · refine ⟨_, subscription_request_counts.2.1 1
      ({ initState [] with
         listeners := [(1, exIdleListener), (2, exIdleListener)],
         lastHandle := 3 }) 1 exIdleListener rfl (by decide) rfl, rfl⟩
  · obtain ⟨s', hs', hsent⟩ := subscription_request_counts.2.2 0
      ({ initState [okResp] with
         listeners := [(1, exIdleListener)],
         lastHandle := 2 }) 1
      exIdleListener okResp [] rfl (by decide) rfl rfl rfl rfl rfl
    exact ⟨s', hs', hsent⟩

/-- Frame lemma for the correlation engine: a completed run of a handler
program, of dispatch, or of `waitForResponse` preserves the registry and
the next handle, restores the call depth to its entry value, and only
ever appends to the ghost dispatch-depth trace. -/
theorem engine_state_frame (fuel : Nat) :
    (∀ s p s', runProg fuel s p = some s' →
      s'.lastHandle = s.lastHandle ∧ s'.listeners = s.listeners ∧
      s'.callDepth = s.callDepth ∧
      ∃ t, s'.dispatchDepths = s.dispatchDepths ++ t) ∧
    (∀ s evt ls s', runListeners fuel s evt ls = some s' →
      s'.lastHandle = s.lastHandle ∧ s'.listeners = s.listeners ∧
      s'.callDepth = s.callDepth ∧
      ∃ t, s'.dispatchDepths = s.dispatchDepths ++ t) ∧
    (∀ s msg s', handleEventM fuel s msg = some s' →
      s'.lastHandle = s.lastHandle ∧ s'.listeners = s.listeners ∧
      s'.callDepth = s.callDepth ∧
      ∃ t, s'.dispatchDepths = s.dispatchDepths ++ t) ∧
    (∀ s m s', waitForResponse fuel s = some (m, s') →
      s'.lastHandle = s.lastHandle ∧ s'.listeners = s.listeners ∧
      s'.callDepth = s.callDepth ∧
      ∃ t, s'.dispatchDepths = s.dispatchDepths ++ t) := by
  induction fuel with
  | zero =>
    refine ⟨?_, ?_, ?_, ?_⟩
    · intro s p s' h
      cases p with
      | ret =>
        simp [runProg] at h
        subst h
        exact ⟨rfl, rfl, rfl, [], by simp⟩
      | call req k => simp [runProg] at h
    · intro s evt ls s' h
      cases ls with
      | nil =>
        simp [runListeners] at h
        subst h
        exact ⟨rfl, rfl, rfl, [], by simp⟩
      | cons l ls => simp [runListeners] at h
    · intro s msg s' h
      simp [handleEventM] at h
    · intro s m s' h
      simp [waitForResponse] at h
  | succ fuel ih =>
    obtain ⟨ihProg, ihList, ihHandle, ihWait⟩ := ih
    have stepProg : ∀ s p s', runProg (fuel + 1) s p = some s' →
        s'.lastHandle = s.lastHandle ∧ s'.listeners = s.listeners ∧
        s'.callDepth = s.callDepth ∧
        ∃ t, s'.dispatchDepths = s.dispatchDepths ++ t := by
      intro s p s' h
      cases p with
      | ret =>
        simp [runProg] at h
        subst h
        exact ⟨rfl, rfl, rfl, [], by simp⟩
      | call req k =>
        rw [runProg] at h
        cases hw : waitForResponse fuel { s with sent := s.sent ++ [req] } with
        | none => rw [hw] at h; simp at h
        | some p1 =>
          obtain ⟨m, s1⟩ := p1
          rw [hw] at h
          dsimp only at h
          obtain ⟨h1, h2, h3, t1, h4⟩ := ihWait _ _ _ hw
          obtain ⟨g1, g2, g3, t2, g4⟩ := ihProg _ _ _ h
          refine ⟨by simp_all, by simp_all, by simp_all, t1 ++ t2, ?_⟩
          rw [g4]
          simp only [h4]
          simp
    have stepList : ∀ s evt ls s', runListeners (fuel + 1) s evt ls = some s' →
        s'.lastHandle = s.lastHandle ∧ s'.listeners = s.listeners ∧
        s'.callDepth = s.callDepth ∧
        ∃ t, s'.dispatchDepths = s.dispatchDepths ++ t := by
      intro s evt ls s' h
      cases ls with
      | nil =>
        simp [runListeners] at h
        subst h
        exact ⟨rfl, rfl, rfl, [], by simp⟩
      | cons l ls =>
        rw [runListeners] at h
        by_cases hm : l.event = evt.event ∧ (l.event ≠ "COMMAND" ∨ l.command = evt.command)
        · rw [if_pos hm] at h
          cases hr : runProg fuel s (l.handler evt) with
          | none => rw [hr] at h; simp at h
          | some s1 =>
            rw [hr] at h
            dsimp only at h
            obtain ⟨h1, h2, h3, t1, h4⟩ := ihProg _ _ _ hr
            obtain ⟨g1, g2, g3, t2, g4⟩ := ihList _ _ _ _ h
            refine ⟨by simp_all, by simp_all, by simp_all, t1 ++ t2, ?_⟩
            rw [g4]
            simp only [h4]
            simp
        · rw [if_neg hm] at h
          exact ihList _ _ _ _ h
    have stepHandle : ∀ s msg s', handleEventM (fuel + 1) s msg = some s' →
        s'.lastHandle = s.lastHandle ∧ s'.listeners = s.listeners ∧
        s'.callDepth = s.callDepth ∧
        ∃ t, s'.dispatchDepths = s.dispatchDepths ++ t := by
      intro s msg s' h
      rw [handleEventM] at h
      cases he : makeEvent msg with
      | error e => rw [he] at h; simp at h
      | ok evt =>
        rw [he] at h
        dsimp only at h
        exact ihList _ _ _ _ h
    have stepWait : ∀ s m s', waitForResponse (fuel + 1) s = some (m, s') →
        s'.lastHandle = s.lastHandle ∧ s'.listeners = s.listeners ∧
        s'.callDepth = s.callDepth ∧
        ∃ t, s'.dispatchDepths = s.dispatchDepths ++ t := by
      intro s m s' h
      rw [waitForResponse] at h
      cases hi : s.input with
      | nil => rw [hi] at h; simp at h
      | cons msg rest =>
        rw [hi] at h
        dsimp only at h
        by_cases hev : isEvent msg
        · rw [if_pos hev] at h
          cases hh : handleEventM fuel
              { s with input := rest, callDepth := s.callDepth + 1,
                       dispatchDepths := s.dispatchDepths ++ [s.callDepth + 1] } msg with
          | none => rw [hh] at h; simp at h
          | some s2 =>
            rw [hh] at h
            dsimp only at h
            obtain ⟨h1, h2, h3, t1, h4⟩ := ihHandle _ _ _ hh
            simp only at h1 h2 h3 h4
            by_cases hq : s2.responseQueue.length > s2.callDepth - 1
            · rw [if_pos hq] at h
              cases hrq : s2.responseQueue with
              | nil => rw [hrq] at h; simp at h
              | cons m0 q =>
                rw [hrq] at h
                simp at h
                obtain ⟨hm0, hs'⟩ := h
                subst hs'
                refine ⟨h1, h2, by simp [h3], [s.callDepth + 1] ++ t1, ?_⟩
                simp only [h4]
                simp
            · rw [if_neg hq] at h
              obtain ⟨g1, g2, g3, t2, g4⟩ := ihWait _ _ _ h
              simp only at g1 g2 g3 g4
              refine ⟨by simp_all, by simp_all, by simp [g3, h3], ?_⟩
              refine ⟨([s.callDepth + 1] ++ t1) ++ t2, ?_⟩
              rw [g4]
              simp only [h4]
              simp
        · rw [if_neg hev] at h
          by_cases hq : s.responseQueue.length = s.callDepth
          · rw [if_pos hq] at h
            simp at h
            obtain ⟨hm0, hs'⟩ := h
            subst hs'
            exact ⟨rfl, rfl, rfl, [], by simp⟩
          · rw [if_neg hq] at h
            obtain ⟨g1, g2, g3, t2, g4⟩ := ihWait _ _ _ h
            simp only at g1 g2 g3 g4
            exact ⟨g1, g2, g3, t2, g4⟩
    exact ⟨stepProg, stepList, stepHandle, stepWait⟩

/-- C3 counterexample: on the Listen path the source never touches the
call-depth counter.  For the one-event script whose handler performs a
nested call, `waitForEvent` dispatches at depth 0 (ghost trace `[0]`, not
the `[1]` an incremented counter would record) and the handler's nested
call receives the response; under the claimed semantics — counter
incremented for the duration of processing, `waitForEventClaimed` — the
same script deadlocks: the response would be queued for a nesting level
that never claims it. -/
theorem listen_depth_counterexample :
    (waitForEvent 10 stateListen).map (fun st => st.dispatchDepths) = some [0] ∧
    (waitForEvent 10 stateListen).map (fun st => st.handlerResponses) = some [okResp] ∧
    waitForEventClaimed 10 stateListen = none := by
  exact ⟨rfl, rfl, rfl⟩

/-- C3 amended: the call-depth counter is incremented for the duration of
processing an inbound event read inside `waitForResponse` (dispatch runs
at the entry depth plus one, and the depth is restored in the returned
state), while an event read by the top-level Listen loop
(`waitForEvent`) is dispatched at the current depth with the counter left
untouched. -/
theorem callDepth_scoping :
    (∀ fuel s msg rest m s', s.input = msg :: rest → isEvent msg = true →
      waitForResponse (fuel + 1) s = some (m, s') →
      s'.callDepth = s.callDepth ∧
      ∃ t, s'.dispatchDepths = s.dispatchDepths ++ (s.callDepth + 1) :: t) ∧
    (∀ fuel s msg rest s', s.input = msg :: rest → isEvent msg = true →
      waitForEvent (fuel + 1) s = some s' →
      s'.callDepth = s.callDepth ∧
      ∃ t, s'.dispatchDepths = s.dispatchDepths ++ s.callDepth :: t) := by
  constructor
  · intro fuel s msg rest m s' hi hev h
    rw [waitForResponse, hi] at h
    dsimp only at h
    rw [if_pos hev] at h
    cases hh : handleEventM fuel
        { s with input := rest, callDepth := s.callDepth + 1,
                 dispatchDepths := s.dispatchDepths ++ [s.callDepth + 1] } msg with
    | none => rw [hh] at h; simp at h
    | some s2 =>
      rw [hh] at h
      dsimp only at h
      obtain ⟨_, _, h3, t1, h4⟩ := (engine_state_frame fuel).2.2.1 _ _ _ hh
      simp only at h3 h4
      by_cases hq : s2.responseQueue.length > s2.callDepth - 1
      · rw [if_pos hq] at h
        cases hrq : s2.responseQueue with
        | nil => rw [hrq] at h; simp at h
        | cons m0 q =>
          rw [hrq] at h
          simp at h
          obtain ⟨hm0, hs'⟩ := h
          subst hs'
          refine ⟨by simp [h3], t1, ?_⟩
          simp only [h4]
          simp
      · rw [if_neg hq] at h
        obtain ⟨_, _, g3, t2, g4⟩ := (engine_state_frame fuel).2.2.2 _ _ _ h
        simp only at g3 g4
        refine ⟨by simp [g3, h3], t1 ++ t2, ?_⟩
        rw [g4]
        simp only [h4]
        simp
  · intro fuel s msg rest s' hi hev h
    rw [waitForEvent, hi] at h
    dsimp only at h
    rw [if_pos hev] at h
    obtain ⟨_, _, h3, t1, h4⟩ := (engine_state_frame fuel).2.2.1 _ _ _ h
    simp only at h3 h4
    refine ⟨by simp [h3], t1, ?_⟩
    simp only [h4]
    simp

/-- C3 witness: the two dispatch-depth behaviours on the concrete nested
scenario (dispatch inside `waitForResponse` recorded at depth 1, final
depth restored to 0) and on the Listen-loop scenario (dispatch recorded
at the unchanged depth 0). -/
theorem callDepth_scoping_witness :
    (∃ m s', waitForResponse 10 stateNested = some (m, s') ∧
      s'.callDepth = stateNested.callDepth ∧
      ∃ t, s'.dispatchDepths =
        stateNested.dispatchDepths ++ (stateNested.callDepth + 1) :: t) ∧
    (∃ s', waitForEvent 10 stateListen = some s' ∧
      s'.callDepth = stateListen.callDepth ∧
      ∃ t, s'.dispatchDepths =
        stateListen.dispatchDepths ++ stateListen.callDepth :: t) := by
  constructor
  · have hw : waitForResponse 10 stateNested =
        some (respOuter,
          { callDepth := 0, responseQueue := [], input := [],
            listeners := [(1, exListener)], lastHandle := 1,
            sent := [exReq], dispatchDepths := [1],
            handlerResponses := [respInner] }) := rfl
    obtain ⟨hd, ht⟩ := callDepth_scoping.1 9 stateNested exEvtMsg
      [respOuter, respInner] respOuter _ rfl rfl hw
    exact ⟨respOuter, _, hw, hd, ht⟩
  · have hw : waitForEvent 10 stateListen =
        some { callDepth := 0, responseQueue := [], input := [],
               listeners := [(1, exListener)], lastHandle := 1,
               sent := [exReq], dispatchDepths := [0],
               handlerResponses := [okResp] } := rfl
    obtain ⟨hd, ht⟩ := callDepth_scoping.2 9 stateListen exEvtMsg
      [okResp] _ rfl rfl hw
    exact ⟨_, hw, hd, ht⟩

/-- C1 counterexample: under the arrival order scripted by the claim —
outer call sent, event arrives, its handler issues an inner call, the
inner response arrives first, then the outer response — the code routes
the frames the other way around: the handler's inner call receives the
second (outer) response and the outer `waitForResponse` returns the
first (inner) response.  The claim's predicted routing is refuted on
this input. -/
theorem correlation_scenario_counterexample :
    (waitForResponse 10 stateClaimOrder).map Prod.fst = some respInner ∧
    (waitForResponse 10 stateClaimOrder).map (fun p => p.2.handlerResponses) =
      some [respOuter] ∧
    ¬ ((waitForResponse 10 stateClaimOrder).map Prod.fst = some respOuter ∧
       (waitForResponse 10 stateClaimOrder).map (fun p => p.2.handlerResponses) =
         some [respInner]) := by
  refine ⟨rfl, rfl, ?_⟩
  rintro ⟨h1, _⟩
  have e : (some respInner : Option Message) = some respOuter := by
    rw [← h1]
    rfl
  have e2 : respInner = respOuter := by injection e
  have e3 : getField "data" respInner = getField "data" respOuter := by rw [e2]
  rw [show getField "data" respInner = some (JVal.str "inner") from rfl,
      show getField "data" respOuter = some (JVal.str "outer") from rfl] at e3
  injection e3 with e4
  injection e4 with e5
  exact absurd e5 (by decide)

/-- C1 amended: the per-frame correlation rule is as claimed — after
dispatching a push event the call pops and returns the head of the
pending-response queue exactly when the queue holds strictly more entries
than the (restored) call depth, and otherwise keeps reading; a response
frame is returned directly exactly when the queue length equals the call
depth, and is otherwise appended to the tail.  In the nested scenario
the inner call receives its own response and the outer call its own
provided the responses arrive in request order: outer response first,
then inner response (the order the engine's no-reordering assumption
prescribes). -/
theorem correlation_rule :
    (∀ fuel s msg rest, s.input = msg :: rest → isEvent msg = false →
      (s.responseQueue.length = s.callDepth →
        waitForResponse (fuel + 1) s = some (msg, { s with input := rest })) ∧
      (s.responseQueue.length ≠ s.callDepth →
        waitForResponse (fuel + 1) s =
          waitForResponse fuel
            { s with input := rest, responseQueue := s.responseQueue ++ [msg] })) ∧
    (∀ fuel s msg rest s2, s.input = msg :: rest → isEvent msg = true →
      handleEventM fuel
        { s with input := rest, callDepth := s.callDepth + 1,
                 dispatchDepths := s.dispatchDepths ++ [s.callDepth + 1] } msg =
        some s2 →
      (s2.responseQueue.length > s2.callDepth - 1 →
        ∃ m q, s2.responseQueue = m :: q ∧
          waitForResponse (fuel + 1) s =
            some (m, { s2 with callDepth := s2.callDepth - 1, responseQueue := q })) ∧
      (¬ s2.responseQueue.length > s2.callDepth - 1 →
        waitForResponse (fuel + 1) s =
          waitForResponse fuel { s2 with callDepth := s2.callDepth - 1 })) ∧
    ((waitForResponse 10 stateNested).map Prod.fst = some respOuter ∧
     (waitForResponse 10 stateNested).map (fun p => p.2.handlerResponses) =
       some [respInner]) := by
  refine ⟨?_, ?_, rfl, rfl⟩
  · intro fuel s msg rest hi hev
    constructor
    · intro hq
      rw [waitForResponse, hi]
      dsimp only
      rw [if_neg (by simp [hev]), if_pos hq]
    · intro hq
      rw [waitForResponse, hi]
      dsimp only
      rw [if_neg (by simp [hev]), if_neg hq]
  · intro fuel s msg rest s2 hi hev hh
    constructor
    · intro hq
      cases hrq : s2.responseQueue with
      | nil => rw [hrq] at hq; simp at hq
      | cons m q =>
        refine ⟨m, q, rfl, ?_⟩
        rw [waitForResponse, hi]
        dsimp only
        rw [if_pos hev, hh]
        dsimp only
        rw [if_pos hq, hrq]
    · intro hq
      rw [waitForResponse, hi]
      dsimp only
      rw [if_pos hev, hh]
      dsimp only
      rw [if_neg hq]

/-- C1 witness: the three parts of the rule exercised at concrete
states — a direct return when the queue length equals the depth, an
append-and-continue when it does not, and a queue pop after dispatch in
the nested scenario. -/
theorem correlation_rule_witness :
    waitForResponse 1 (initState [okResp]) =
      some (okResp, { initState [okResp] with input := [] }) ∧
    waitForResponse 2 ({ initState [okResp] with responseQueue := [respOuter] }) =
      waitForResponse 1
        ({ initState [okResp] with
           input := [],
           responseQueue := [respOuter, okResp] }) ∧
    (∃ m q,
      ({ callDepth := 1, responseQueue := [respOuter], input := [],
         listeners := [(1, exListener)], lastHandle := 1, sent := [exReq],
         dispatchDepths := [1],
         handlerResponses := [respInner] } : DZState).responseQueue = m :: q ∧
      waitForResponse 10 stateNested =
        some (m,
          { callDepth := 0, responseQueue := q, input := [],
            listeners := [(1, exListener)], lastHandle := 1, sent := [exReq],
            dispatchDepths := [1], handlerResponses := [respInner] })) := by
  refine ⟨?_, ?_, ?_⟩
  · exact (correlation_rule.1 0 (initState [okResp]) okResp [] rfl rfl).1 rfl
  · exact (correlation_rule.1 1 ({ initState [okResp] with responseQueue := [respOuter] })
      okResp [] rfl rfl).2 (by simp [initState])
  · obtain ⟨m, q, hrq, hres⟩ := (correlation_rule.2.1 9 stateNested exEvtMsg
      [respOuter, respInner]
      ({ callDepth := 1, responseQueue := [respOuter], input := [],
         listeners := [(1, exListener)], lastHandle := 1, sent := [exReq],
         dispatchDepths := [1], handlerResponses := [respInner] } : DZState)
      rfl rfl rfl).1 (by simp)
    exact ⟨m, q, hrq, hres⟩

/-- A completed `writeForSuccessResponse` never changes the next
handle. -/
theorem wfsr_lastHandle (fuel : Nat) (s : DZState) (m : Message)
    (res : Except String Message) (s' : DZState)
    (h : writeForSuccessResponse fuel s m = some (res, s')) :
    s'.lastHandle = s.lastHandle := by
  unfold writeForSuccessResponse waitForSuccessResponse at h
  cases hw : waitForResponse fuel (write s m) with
  | none => rw [hw] at h; simp at h
  | some p =>
    obtain ⟨r, s1⟩ := p
    rw [hw] at h
    dsimp only at h
    simp at h
    obtain ⟨g1, _, _, _⟩ := (engine_state_frame fuel).2.2.2 _ _ _ hw
    rw [← h.2, g1]
    rfl

/-- Handle bookkeeping of `Subscribe`: success returns the current next
handle and advances it by one; failure leaves it unchanged. -/
theorem subscribe_handle_step (fuel : Nat) (s : DZState) (ev : String)
    (hd : Event → HandlerProg) :
    (∀ h0 s', Subscribe fuel s ev hd = some (.ok h0, s') →
      h0 = s.lastHandle ∧ s'.lastHandle = s.lastHandle + 1) ∧
    (∀ e s', Subscribe fuel s ev hd = some (.error e, s') →
      s'.lastHandle = s.lastHandle) := by
  constructor
  · intro h0 s' h
    rw [Subscribe] at h
    cases hw : writeForSuccessResponse fuel s (subscribeMsg ev) with
    | none => rw [hw] at h; simp at h
    | some p =>
      obtain ⟨res, s1⟩ := p
      rw [hw] at h
      cases res with
      | error e => simp at h
      | ok r =>
        simp at h
        have hlh := wfsr_lastHandle fuel s (subscribeMsg ev) (.ok r) s1 hw
        exact ⟨h.1.symm.trans hlh, by rw [← h.2]; simp [hlh]⟩
  · intro e s' h
    rw [Subscribe] at h
    cases hw : writeForSuccessResponse fuel s (subscribeMsg ev) with
    | none => rw [hw] at h; simp at h
    | some p =>
      obtain ⟨res, s1⟩ := p
      rw [hw] at h
      cases res with
      | error e0 =>
        simp at h
        rw [← h.2]
        exact wfsr_lastHandle fuel s (subscribeMsg ev) (.error e0) s1 hw
      | ok r => simp at h

/-- Handle bookkeeping of `SubscribeCommand`, as for `Subscribe`; the
scope-encoding failure also leaves the next handle unchanged. -/
theorem subscribeCommand_handle_step (fuel : Nat) (s : DZState) (cmd : String)
    (scope : Scope) (hd : Event → HandlerProg) :
    (∀ h0 s', SubscribeCommand fuel s cmd scope hd = some (.ok h0, s') →
      h0 = s.lastHandle ∧ s'.lastHandle = s.lastHandle + 1) ∧
    (∀ e s', SubscribeCommand fuel s cmd scope hd = some (.error e, s') →
      s'.lastHandle = s.lastHandle) := by
  constructor
  · intro h0 s' h
    rw [SubscribeCommand] at h
    cases hsl : scope.ToCommandSlice with
    | error e => rw [hsl] at h; simp at h
    | ok slice =>
      rw [hsl] at h
      dsimp only at h
      cases hw : writeForSuccessResponse fuel s (commandMsg cmd slice) with
      | none => rw [hw] at h; simp at h
      | some p =>
        obtain ⟨res, s1⟩ := p
        rw [hw] at h
        cases res with
        | error e => simp at h
        | ok r =>
          simp at h
          have hlh := wfsr_lastHandle fuel s (commandMsg cmd slice) (.ok r) s1 hw
          exact ⟨h.1.symm.trans hlh, by rw [← h.2]; simp [hlh]⟩
  · intro e s' h
    rw [SubscribeCommand] at h
    cases hsl : scope.ToCommandSlice with
    | error e0 =>
      rw [hsl] at h
      simp at h
      rw [← h.2]
    | ok slice =>
      rw [hsl] at h
      dsimp only at h
      cases hw : writeForSuccessResponse fuel s (commandMsg cmd slice) with
      | none => rw [hw] at h; simp at h
      | some p =>
        obtain ⟨res, s1⟩ := p
        rw [hw] at h
        cases res with
        | error e0 =>
          simp at h
          rw [← h.2]
          exact wfsr_lastHandle fuel s (commandMsg cmd slice) (.error e0) s1 hw
        | ok r => simp at h

/-- `Unsubscribe` never changes the next handle, whatever its outcome. -/
theorem unsubscribe_handle_step (fuel : Nat) (s : DZState) (handle : Nat)
    (res : Except String Unit) (s' : DZState)
    (h : Unsubscribe fuel s handle = some (res, s')) :
    s'.lastHandle = s.lastHandle := by
  rw [Unsubscribe] at h
  cases hg : getListener handle s.listeners with
  | none => rw [hg] at h; simp at h; rw [← h.2]
  | some l =>
    rw [hg] at h
    dsimp only at h
    by_cases hc : l.event ≠ "COMMAND"
    · rw [if_pos hc] at h
      by_cases ha : anyEvent l.event
          (removeListener handle s.listeners) = true
      · rw [if_pos ha] at h
        simp at h
        rw [← h.2]
      · rw [if_neg (by simpa using ha)] at h
        cases hw : writeForSuccessResponse fuel
            { s with listeners := removeListener handle s.listeners }
            (unsubscribeMsg l.event) with
        | none => rw [hw] at h; simp at h
        | some p =>
          obtain ⟨res0, s2⟩ := p
          rw [hw] at h
          have hlh := wfsr_lastHandle fuel _ _ res0 s2 hw
          cases res0 with
          | error e => simp at h; rw [← h.2]; exact hlh
          | ok r => simp at h; rw [← h.2]; exact hlh
    · rw [if_neg hc] at h
      simp at h
      rw [← h.2]

/-- On any operation sequence the successful registrations return exactly
the consecutive handles starting from the connection's current next
handle, which advances by their number. -/
theorem runOps_range (fuel : Nat) (ops : List Op) :
    ∀ s s' hs, runOps fuel s ops = (s', hs) →
      hs = List.range' s.lastHandle hs.length ∧
      s'.lastHandle = s.lastHandle + hs.length := by
  induction ops with
  | nil =>
    intro s s' hs h
    simp [runOps] at h
    obtain ⟨h1, h2⟩ := h
    subst h1; subst h2
    simp [List.range']
  | cons op ops ih =>
    intro s s' hs h
    cases op with
    | sub ev hd =>
      rw [runOps] at h
      cases hsub : Subscribe fuel s ev hd with
      | none =>
        rw [hsub] at h
        simp at h
        obtain ⟨h1, h2⟩ := h
        subst h1; subst h2
        simp [List.range']
      | some p =>
        obtain ⟨res, s1⟩ := p
        rw [hsub] at h
        cases res with
        | error e =>
          dsimp only at h
          have hlh := (subscribe_handle_step fuel s ev hd).2 e s1 hsub
          obtain ⟨g1, g2⟩ := ih s1 s' hs h
          rw [hlh] at g1 g2
          exact ⟨g1, g2⟩
        | ok h0 =>
          dsimp only at h
          cases hrun : runOps fuel s1 ops with
          | mk s2 hs1 =>
            rw [hrun] at h
            simp at h
            obtain ⟨h1, h2⟩ := h
            subst h1; subst h2
            obtain ⟨hh0, hlh⟩ := (subscribe_handle_step fuel s ev hd).1 h0 s1 hsub
            obtain ⟨g1, g2⟩ := ih s1 s2 hs1 hrun
            rw [hlh] at g1 g2
            constructor
            · rw [hh0, List.length_cons, List.range'_succ, ← g1]
            · rw [g2]
              simp only [List.length_cons]
              omega
    | subCmd cmd scope hd =>
      rw [runOps] at h
      cases hsub : SubscribeCommand fuel s cmd scope hd with
      | none =>
        rw [hsub] at h
        simp at h
        obtain ⟨h1, h2⟩ := h
        subst h1; subst h2
        simp [List.range']
      | some p =>
        obtain ⟨res, s1⟩ := p
        rw [hsub] at h
        cases res with
        | error e =>
          dsimp only at h
          have hlh := (subscribeCommand_handle_step fuel s cmd scope hd).2 e s1 hsub
          obtain ⟨g1, g2⟩ := ih s1 s' hs h
          rw [hlh] at g1 g2
          exact ⟨g1, g2⟩
        | ok h0 =>
          dsimp only at h
          cases hrun : runOps fuel s1 ops with
          | mk s2 hs1 =>
            rw [hrun] at h
            simp at h
            obtain ⟨h1, h2⟩ := h
            subst h1; subst h2
            obtain ⟨hh0, hlh⟩ := (subscribeCommand_handle_step fuel s cmd scope hd).1
              h0 s1 hsub
            obtain ⟨g1, g2⟩ := ih s1 s2 hs1 hrun
            rw [hlh] at g1 g2
            constructor
            · rw [hh0, List.length_cons, List.range'_succ, ← g1]
            · rw [g2]
              simp only [List.length_cons]
              omega
    | unsub h0 =>
      rw [runOps] at h
      cases huns : Unsubscribe fuel s h0 with
      | none =>
        rw [huns] at h
        simp at h
        obtain ⟨h1, h2⟩ := h
        subst h1; subst h2
        simp [List.range']
      | some p =>
        obtain ⟨res, s1⟩ := p
        rw [huns] at h
        dsimp only at h
        have hlh := unsubscribe_handle_step fuel s h0 res s1 huns
        obtain ⟨g1, g2⟩ := ih s1 s' hs h
        rw [hlh] at g1 g2
        exact ⟨g1, g2⟩

/-- C9: on a fresh connection the successful registrations of any
operation sequence return strictly increasing handles — so no handle is
ever returned twice, also after unregistrations — and the first
successful registration returns handle 1. -/
theorem handle_allocation (fuel : Nat) (input : List Message) (ops : List Op) :
    List.Pairwise (· < ·) (runOps fuel (initState input) ops).2 ∧
    ((runOps fuel (initState input) ops).2 ≠ [] →
      (runOps fuel (initState input) ops).2.head? = some 1) := by
  cases hr : runOps fuel (initState input) ops with
  | mk s' hs =>
    obtain ⟨hrange, _⟩ := runOps_range fuel ops (initState input) s' hs hr
    have h1 : (initState input).lastHandle = 1 := rfl
    rw [h1] at hrange
    constructor
    · simp only [hr]
      rw [hrange]
      exact List.pairwise_lt_range' 1 hs.length
    · intro hne
      simp only [hr] at hne ⊢
      cases hl : hs.length with
      | zero => rw [List.length_eq_zero] at hl; exact absurd hl hne
      | succ k =>
        rw [hrange, hl, List.range'_succ]
        rfl

/-- C9 witness: a concrete session — subscribe, subscribe, unsubscribe
the first handle, subscribe again — returns handles 1, 2, 3: strictly
increasing, starting at 1, and handle 1 is not reused after its
unregistration. -/
theorem handle_allocation_witness :
    (runOps 2 (initState [okResp, okResp, okResp])
      [.sub "PRIVMSG" idleHandler, .sub "PRIVMSG" idleHandler, .unsub 1,
       .sub "JOIN" idleHandler]).2 = [1, 2, 3] ∧
    List.Pairwise (· < ·)
      (runOps 2 (initState [okResp, okResp, okResp])
        [.sub "PRIVMSG" idleHandler, .sub "PRIVMSG" idleHandler, .unsub 1,
         .sub "JOIN" idleHandler]).2 ∧
    (runOps 2 (initState [okResp, okResp, okResp])
      [.sub "PRIVMSG" idleHandler, .sub "PRIVMSG" idleHandler, .unsub 1,
       .sub "JOIN" idleHandler]).2.head? = some 1 := by
  have he : (runOps 2 (initState [okResp, okResp, okResp])
      [.sub "PRIVMSG" idleHandler, .sub "PRIVMSG" idleHandler, .unsub 1,
       .sub "JOIN" idleHandler]).2 = [1, 2, 3] := rfl
  refine ⟨he, (handle_allocation 2 [okResp, okResp, okResp] _).1,
    (handle_allocation 2 [okResp, okResp, okResp] _).2 ?_⟩
  rw [he]
  simp

/-- Unfolding of `natDigits` for one-digit numbers. -/
theorem natDigits_lt10 (n : Nat) (h : n < 10) : natDigits n = [48 + n] := by
  rw [natDigits, if_pos h]

/-- Unfolding of `natDigits` for numbers of several digits. -/
theorem natDigits_split (n : Nat) (h : 10 ≤ n) :
    natDigits n = natDigits (n / 10) ++ [48 + n % 10] := by
  rw [natDigits, if_neg (by omega)]

/-- Every byte of a decimal representation is an ASCII digit. -/
theorem natDigits_digits (n : Nat) : ∀ c ∈ natDigits n, 48 ≤ c ∧ c ≤ 57 := by
  induction n using Nat.strong_induction_on with
  | _ n ih =>
    by_cases h : n < 10
    · rw [natDigits_lt10 n h]
      intro c hc
      simp at hc
      omega
    · rw [natDigits_split n (by omega)]
      intro c hc
      rw [List.mem_append] at hc
      rcases hc with hc | hc
      · exact ih (n / 10) (Nat.div_lt_self (by omega) (by omega)) c hc
      · simp at hc
        have := Nat.mod_lt n (show 0 < 10 by omega)
        omega

/-- A decimal representation is never empty. -/
theorem natDigits_ne_nil (n : Nat) : natDigits n ≠ [] := by
  by_cases h : n < 10
  · rw [natDigits_lt10 n h]; simp
  · rw [natDigits_split n (by omega)]; simp

/-- A decimal representation starts with an ASCII digit. -/
theorem natDigits_cons (n : Nat) :
    ∃ c0 tl, natDigits n = c0 :: tl ∧ 48 ≤ c0 ∧ c0 ≤ 57 := by
  cases hd : natDigits n with
  | nil => exact absurd hd (natDigits_ne_nil n)
  | cons c0 tl =>
    refine ⟨c0, tl, rfl, ?_⟩
    have := natDigits_digits n c0 (by rw [hd]; simp)
    exact this

/-- `wrap64` is the identity on values in the signed 64-bit range. -/
theorem wrap64_id (x : Int) (h0 : -9223372036854775808 ≤ x)
    (h1 : x < 9223372036854775808) : wrap64 x = x := by
  unfold wrap64
  rw [Int.emod_eq_of_lt (by omega) (by omega)]
  omega

/-- The header scan consumes an all-digit buffer entirely. -/
theorem scanHeader_all_digits (ds : List Nat) :
    ∀ a, (∀ c ∈ ds, 48 ≤ c ∧ c ≤ 57) → (scanHeader ds a).1 = ds.length := by
  induction ds with
  | nil => intro a _; rfl
  | cons c rest ih =>
    intro a hd
    have hc := hd c (by simp)
    rw [scanHeader, if_pos hc]
    have := ih (wrap64 (wrap64 (a * 10) + ((c : Int) - 48))) (fun x hx => hd x (by simp [hx]))
    simp [this]

/-- The header scan stops at a byte that is neither a digit nor CR/LF. -/
theorem scanHeader_stop (c : Nat) (rest : List Nat) (a : Int)
    (hc : ¬(48 ≤ c ∧ c ≤ 57)) (h10 : c ≠ 10) (h13 : c ≠ 13) :
    scanHeader (c :: rest) a = (0, a) := by
  rw [scanHeader, if_neg hc, if_neg (by omega)]

/-- Scanning the decimal digits of `n` from accumulator `a` advances the
offset by the digit count and accumulates to `a * 10 ^ digits + n`, with
no wrap-around as long as that value stays in the signed 64-bit range. -/
theorem scanHeader_digits (n : Nat) :
    ∀ (rest : List Nat) (a : Int), 0 ≤ a →
    a * 10 ^ (natDigits n).length + n < 9223372036854775808 →
    scanHeader (natDigits n ++ rest) a =
      ((scanHeader rest (a * 10 ^ (natDigits n).length + n)).1 + (natDigits n).length,
       (scanHeader rest (a * 10 ^ (natDigits n).length + n)).2) := by
  induction n using Nat.strong_induction_on with
  | _ n ih =>
    intro rest a ha hb
    by_cases h : n < 10
    · rw [natDigits_lt10 n h] at hb ⊢
      simp only [List.length_cons, List.length_nil, pow_one, zero_add] at hb ⊢
      rw [List.cons_append, scanHeader, if_pos (by omega)]
      have hc1 : ((48 + n : Nat) : Int) - 48 = (n : Int) := by push_cast; omega
      have hw1 : wrap64 (a * 10) = a * 10 := by
        apply wrap64_id <;> omega
      have hw2 : wrap64 (a * 10 + (n : Int)) = a * 10 + n := by
        apply wrap64_id <;> omega
      rw [hc1, hw1, hw2]
      simp [pow_one]
    · have hsplit := natDigits_split n (by omega)
      have hlen : (natDigits n).length = (natDigits (n / 10)).length + 1 := by
        rw [hsplit]; simp
      set L := (natDigits (n / 10)).length with hL
      set V := a * 10 ^ (natDigits n).length + (n : Int) with hV
      set A := a * 10 ^ L + ((n / 10 : Nat) : Int) with hA
      have hdm : ((n / 10 : Nat) : Int) * 10 + ((n % 10 : Nat) : Int) = (n : Int) := by
        have := Nat.div_add_mod n 10
        push_cast
        omega
      have hcomb : A * 10 + ((n % 10 : Nat) : Int) = V := by
        calc A * 10 + ((n % 10 : Nat) : Int)
            = a * (10 ^ L * 10) + (((n / 10 : Nat) : Int) * 10 + ((n % 10 : Nat) : Int)) := by
              rw [hA]; ring
          _ = V := by rw [hdm, hV, hlen, pow_succ]
      have hAnn : 0 ≤ A := by
        have : (0 : Int) ≤ a * 10 ^ L := by positivity
        have : (0 : Int) ≤ ((n / 10 : Nat) : Int) := by positivity
        omega
      have hmnn : (0 : Int) ≤ ((n % 10 : Nat) : Int) := by positivity
      have hAb : A < 9223372036854775808 := by omega
      have key : scanHeader (natDigits n ++ rest) a =
          scanHeader (natDigits (n / 10) ++ ((48 + n % 10) :: rest)) a := by
        rw [hsplit, List.append_assoc, List.singleton_append]
      rw [key, ih (n / 10) (Nat.div_lt_self (by omega) (by omega)) ((48 + n % 10) :: rest) a
        ha (by rw [← hL]; exact hAb)]
      have hm10 : n % 10 < 10 := Nat.mod_lt n (by omega)
      rw [← hL, ← hA]
      rw [scanHeader, if_pos (by omega)]
      have hc1 : ((48 + n % 10 : Nat) : Int) - 48 = ((n % 10 : Nat) : Int) := by
        push_cast; omega
      have hw1 : wrap64 (A * 10) = A * 10 := by
        apply wrap64_id <;> omega
      rw [hc1, hw1]
      have hw2 : wrap64 (A * 10 + ((n % 10 : Nat) : Int)) = V := by
        rw [wrap64_id _ (by omega) (by omega)]
        exact hcomb
      rw [hw2]
      rcases hscan : scanHeader rest V with ⟨o, out⟩
      dsimp only
      rw [hlen]
      congr 1
      omega

/-- On a complete frame produced by `encodeFrame`, `checkMessage` finds
the message: the offset is the header length and the length is the body
length.  The guard says the body starts with a byte the header scan
stops at — every JSON object body does, starting with a brace — and the
bound keeps the length in the positive range of a 64-bit int, as any
real buffer is. -/
theorem checkMessage_frame (body : List Nat) (hne : 0 < body.length)
    (hbound : (body.length : Int) < 9223372036854775808)
    (hguard : ∀ c rest', body = c :: rest' → ¬(48 ≤ c ∧ c ≤ 57) ∧ c ≠ 10 ∧ c ≠ 13) :
    checkMessage (encodeFrame body) =
      (true, (natDigits body.length).length, (body.length : Int)) := by
  have hex : ∃ c rest', body = c :: rest' := by
    cases body with
    | nil => simp at hne
    | cons c r => exact ⟨c, r, rfl⟩
  obtain ⟨c, rest', hbody⟩ := hex
  obtain ⟨hcd, hc10, hc13⟩ := hguard c rest' hbody
  have h0v : (0 : Int) * 10 ^ (natDigits body.length).length + (body.length : Int) =
      (body.length : Int) := by ring
  have hscan : scanHeader (natDigits body.length ++ body) 0 =
      ((scanHeader body (body.length : Int)).1 + (natDigits body.length).length,
       (scanHeader body (body.length : Int)).2) := by
    have h5 := scanHeader_digits body.length body 0 (by omega) (by rw [h0v]; exact hbound)
    rw [h0v] at h5
    exact h5
  have hstop : scanHeader body (body.length : Int) = (0, (body.length : Int)) := by
    rw [hbody]
    exact scanHeader_stop c rest' _ hcd hc10 hc13
  rw [encodeFrame, checkMessage, hscan, hstop]
  dsimp only
  rw [if_pos (⟨by omega, by rw [List.length_append]; push_cast; omega⟩ : _ ∧ _)]
  norm_num

/-- While fewer bytes than the whole frame are available, `checkMessage`
reports no message, whatever the split point. -/
theorem checkMessage_chunk (body : List Nat) (hne : 0 < body.length)
    (hbound : (body.length : Int) < 9223372036854775808)
    (hguard : ∀ c rest', body = c :: rest' → ¬(48 ≤ c ∧ c ≤ 57) ∧ c ≠ 10 ∧ c ≠ 13) :
    ∀ k, k < (natDigits body.length).length + body.length →
      (checkMessage ((encodeFrame body).take k)).1 = false := by
  intro k hk
  by_cases hkl : k ≤ (natDigits body.length).length
  · rw [encodeFrame, List.take_append_of_le_length hkl]
    set ds := (natDigits body.length).take k with hds
    have hdig : ∀ c ∈ ds, 48 ≤ c ∧ c ≤ 57 := by
      intro c hc
      exact natDigits_digits body.length c (List.take_subset k _ hc)
    have hlds : ds.length = k := by
      rw [hds, List.length_take]
      omega
    rw [checkMessage]
    rcases hsv : scanHeader ds 0 with ⟨o, v⟩
    have ho : o = ds.length := by
      have h5 := scanHeader_all_digits ds 0 hdig
      rw [hsv] at h5
      exact h5
    dsimp only
    rw [if_neg]
    rintro ⟨hv, hge⟩
    rw [hlds] at ho
    rw [ho, hlds] at hge
    omega
  · have hex : ∃ c rest', body = c :: rest' := by
      cases body with
      | nil => simp at hne
      | cons c r => exact ⟨c, r, rfl⟩
    obtain ⟨c, rest', hbody⟩ := hex
    obtain ⟨hcd, hc10, hc13⟩ := hguard c rest' hbody
    have hsplit : (encodeFrame body).take k =
        natDigits body.length ++ body.take (k - (natDigits body.length).length) := by
      rw [encodeFrame, List.take_append_eq_append_take,
        List.take_of_length_le (by omega)]
    obtain ⟨j, hj⟩ : ∃ j, k - (natDigits body.length).length = j + 1 :=
      ⟨k - (natDigits body.length).length - 1, by omega⟩
    have htake : body.take (k - (natDigits body.length).length) =
        c :: rest'.take j := by
      rw [hj, hbody, List.take_succ_cons]
    have h0v : (0 : Int) * 10 ^ (natDigits body.length).length + (body.length : Int) =
        (body.length : Int) := by ring
    have hscan := scanHeader_digits body.length
      (body.take (k - (natDigits body.length).length)) 0 (by omega)
      (by rw [h0v]; exact hbound)
    rw [h0v] at hscan
    have hstop : scanHeader (body.take (k - (natDigits body.length).length))
        (body.length : Int) = (0, (body.length : Int)) := by
      rw [htake]
      exact scanHeader_stop c _ _ hcd hc10 hc13
    rw [hsplit, checkMessage, hscan, hstop]
    dsimp only
    rw [if_neg]
    rintro ⟨_, hge⟩
    rw [List.length_append, List.length_take] at hge
    have hlt : k - (natDigits body.length).length ≤ body.length := by omega
    rw [min_eq_left hlt] at hge
    push_cast at hge
    omega

/-- C6: `checkMessage` reports a frame only when the scanned body length
is positive and the buffer already holds `offset + bodyLength` bytes;
and on any strict prefix of a valid encoded frame — any split point
short of the full frame — it reports no frame (chunking invariance). -/
theorem frame_completeness :
    (∀ buf found offset messageLen,
      checkMessage buf = (found, offset, messageLen) → found = true →
      messageLen > 0 ∧ (buf.length : Int) ≥ (offset : Int) + messageLen) ∧
    (∀ body k, 0 < body.length → (body.length : Int) < 9223372036854775808 →
      (∀ c rest', body = c :: rest' → ¬(48 ≤ c ∧ c ≤ 57) ∧ c ≠ 10 ∧ c ≠ 13) →
      k < (natDigits body.length).length + body.length →
      (checkMessage ((encodeFrame body).take k)).1 = false) := by
  constructor
  · intro buf found offset messageLen h hf
    rw [checkMessage] at h
    rcases hsv : scanHeader buf 0 with ⟨o, v⟩
    rw [hsv] at h
    dsimp only at h
    by_cases hcond : v > 0 ∧ (buf.length : Int) ≥ (o : Int) + v
    · rw [if_pos hcond] at h
      cases h
      exact hcond
    · rw [if_neg hcond] at h
      cases h
      simp at hf
  · intro body k h1 h2 h3 h4
    exact checkMessage_chunk body h1 h2 h3 k h4

/-- C6 witness: the two-byte JSON body `\x7b\x7d` framed as `2\x7b\x7d`:
the complete frame is found with positive length and sufficient bytes,
and both strict prefixes are rejected. -/
theorem frame_completeness_witness :
    ((2 : Int) > 0 ∧ (([50, 123, 125] : List Nat).length : Int) ≥ (1 : Int) + 2) ∧
    (checkMessage (([50, 123, 125] : List Nat).take 1)).1 = false ∧
    (checkMessage (([50, 123, 125] : List Nat).take 2)).1 = false := by
  have hframe : encodeFrame [123, 125] = [50, 123, 125] := by
    simp [encodeFrame, natDigits]
  refine ⟨?_, ?_, ?_⟩
  · exact frame_completeness.1 [50, 123, 125] true 1 2 (by decide) rfl
  · have := frame_completeness.2 [123, 125] 1 (by decide) (by decide)
      (by intro c rest' hcr; cases hcr; decide) (by simp [natDigits])
    rw [hframe] at this
    exact this
  · have := frame_completeness.2 [123, 125] 2 (by decide) (by decide)
      (by intro c rest' hcr; cases hcr; decide) (by simp [natDigits])
    rw [hframe] at this
    exact this

/-- Consuming the decimal digits of `n` accumulates `acc * 10 ^ digits
+ n` and leaves the continuation. -/
theorem parseDigitsAux_natDigits (n : Nat) : ∀ (rest : List Nat) (acc : Nat),
    parseDigitsAux (natDigits n ++ rest) acc =
      parseDigitsAux rest (acc * 10 ^ (natDigits n).length + n) := by
  induction n using Nat.strong_induction_on with
  | _ n ih =>
    intro rest acc
    by_cases h : n < 10
    · rw [natDigits_lt10 n h, List.singleton_append, parseDigitsAux, if_pos (by omega)]
      simp only [List.length_cons, List.length_nil, pow_one]
      congr 1
      omega
    · have hsplit := natDigits_split n (by omega)
      have hlen : (natDigits n).length = (natDigits (n / 10)).length + 1 := by
        rw [hsplit]; simp
      have key : natDigits n ++ rest = natDigits (n / 10) ++ ((48 + n % 10) :: rest) := by
        rw [hsplit, List.append_assoc, List.singleton_append]
      rw [key, ih (n / 10) (Nat.div_lt_self (by omega) (by omega))]
      rw [parseDigitsAux, if_pos (by have := Nat.mod_lt n (show 0 < 10 by omega); omega)]
      congr 1
      have hdm := Nat.div_add_mod n 10
      set L := (natDigits (n / 10)).length with hL
      rw [hlen, pow_succ]
      have h48 : 48 + n % 10 - 48 = n % 10 := by omega
      rw [h48]
      ring_nf
      omega

/-- The digit parser stops immediately on a non-digit head. -/
theorem parseDigitsAux_stop (rest : List Nat) (acc : Nat)
    (h : ∀ c rest2, rest = c :: rest2 → ¬(48 ≤ c ∧ c ≤ 57)) :
    parseDigitsAux rest acc = (acc, rest) := by
  cases rest with
  | nil => rfl
  | cons c rest2 => rw [parseDigitsAux, if_neg (h c rest2 rfl)]

/-- `hexDigit` produces a hexadecimal digit byte whose value parses
back. -/
theorem hexDigit_spec (d : Nat) (h : d < 16) :
    isHex (hexDigit d) = true ∧ hexVal (hexDigit d) = d := by
  unfold hexDigit isHex hexVal
  by_cases h10 : d < 10
  · rw [if_pos h10]
    refine ⟨by rw [if_pos (by omega)], ?_⟩
    rw [if_pos (by omega)]
    omega
  · rw [if_neg h10]
    refine ⟨by rw [if_pos (by omega)], ?_⟩
    rw [if_neg (by omega), if_pos (by omega)]
    omega

/-- Round trip of the string-body codec: parsing the escaped bytes up to
the closing quote recovers the original bytes and the continuation. -/
theorem parseStrBody_escBytes (bs : List Nat) : ∀ rest, (∀ c ∈ bs, c < 256) →
    parseStrBody (escBytes bs ++ 34 :: rest) = some (bs, rest) := by
  induction bs with
  | nil =>
    intro rest _
    rw [escBytes, List.nil_append, parseStrBody.eq_def]
    dsimp only
    rw [if_pos rfl]
  | cons c bs ih =>
    intro rest hwf
    have hc := hwf c (by simp)
    have ihr := ih rest (fun x hx => hwf x (by simp [hx]))
    rw [escBytes, List.append_assoc]
    rw [escByte]
    by_cases h34 : c = 34
    · rw [if_pos h34]
      rw [show ([92, 34] : List Nat) ++ (escBytes bs ++ 34 :: rest) =
        92 :: 34 :: (escBytes bs ++ 34 :: rest) from rfl]
      rw [parseStrBody.eq_def]
      dsimp only
      rw [if_neg (by omega), if_pos rfl]
      rw [if_pos rfl, ihr, h34]
      simp [consStr]
    · rw [if_neg h34]
      by_cases h92 : c = 92
      · rw [if_pos h92]
        rw [show ([92, 92] : List Nat) ++ (escBytes bs ++ 34 :: rest) =
          92 :: 92 :: (escBytes bs ++ 34 :: rest) from rfl]
        rw [parseStrBody.eq_def]
        dsimp only
        rw [if_neg (by omega), if_pos rfl]
        rw [if_neg (by omega), if_pos rfl, ihr, h92]
        simp [consStr]
      · rw [if_neg h92]
        by_cases h10 : c = 10
        · rw [if_pos h10]
          rw [show ([92, 110] : List Nat) ++ (escBytes bs ++ 34 :: rest) =
            92 :: 110 :: (escBytes bs ++ 34 :: rest) from rfl]
          rw [parseStrBody.eq_def]
          dsimp only
          rw [if_neg (by omega), if_pos rfl]
          rw [if_neg (by decide), if_neg (by omega), if_neg (by decide),
            if_neg (by omega), if_neg (by decide), if_pos rfl, ihr, h10]
          simp [consStr]
        · rw [if_neg h10]
          by_cases h13 : c = 13
          · rw [if_pos h13]
            rw [show ([92, 114] : List Nat) ++ (escBytes bs ++ 34 :: rest) =
              92 :: 114 :: (escBytes bs ++ 34 :: rest) from rfl]
            rw [parseStrBody.eq_def]
            dsimp only
            rw [if_neg (by omega), if_pos rfl]
            rw [if_neg (by decide), if_neg (by omega), if_neg (by decide),
              if_neg (by omega), if_neg (by decide), if_neg (by omega), if_pos rfl,
              ihr, h13]
            simp [consStr]
          · rw [if_neg h13]
            by_cases h9 : c = 9
            · rw [if_pos h9]
              rw [show ([92, 116] : List Nat) ++ (escBytes bs ++ 34 :: rest) =
                92 :: 116 :: (escBytes bs ++ 34 :: rest) from rfl]
              rw [parseStrBody.eq_def]
              dsimp only
              rw [if_neg (by omega), if_pos rfl]
              rw [if_neg (by decide), if_neg (by omega), if_neg (by decide),
                if_neg (by omega), if_neg (by decide), if_neg (by omega),
                if_neg (by decide), if_pos rfl, ihr, h9]
              simp [consStr]
            · rw [if_neg h9]
              by_cases hu : c < 32 ∨ c = 60 ∨ c = 62 ∨ c = 38
              · rw [if_pos hu]
                rw [show ([92, 117, 48, 48, hexDigit (c / 16), hexDigit (c % 16)] :
                    List Nat) ++ (escBytes bs ++ 34 :: rest) =
                  92 :: 117 :: 48 :: 48 :: hexDigit (c / 16) :: hexDigit (c % 16) ::
                    (escBytes bs ++ 34 :: rest) from rfl]
                rw [parseStrBody.eq_def]
                dsimp only
                rw [if_neg (by omega), if_pos rfl]
                rw [if_neg (by decide), if_neg (by omega), if_neg (by decide),
                  if_neg (by omega), if_neg (by decide), if_neg (by omega),
                  if_neg (by decide), if_neg (by omega), if_pos rfl]
                obtain ⟨hhx1, hhv1⟩ := hexDigit_spec (c / 16) (by omega)
                obtain ⟨hhx2, hhv2⟩ := hexDigit_spec (c % 16) (by omega)
                rw [if_pos (by
                  rw [hhx1, hhx2, show isHex 48 = true by rw [isHex, if_pos (by omega)]]
                  rfl)]
                rw [ihr]
                rw [show hexVal 48 = 0 by rw [hexVal, if_pos (by omega)], hhv1, hhv2]
                have harith : 0 * 4096 + 0 * 256 + c / 16 * 16 + c % 16 = c := by omega
                rw [harith]
                simp [consStr]
              · rw [if_neg hu]
                rw [List.singleton_append, parseStrBody.eq_def]
                dsimp only
                rw [if_neg h34, if_neg h92, ihr]
                simp [consStr]

/-- Every serialized value starts with a byte that is not a closing
bracket, a closing brace or a comma — the delimiters the container
parsers dispatch on. -/
theorem serVal_head (v : SJson) : ∃ c0 tl, serVal v = c0 :: tl ∧
    c0 ≠ 93 ∧ c0 ≠ 125 ∧ c0 ≠ 44 := by
  cases v with
  | str bs =>
    refine ⟨34, escBytes bs ++ [34], ?_, by omega, by omega, by omega⟩
    simp [serVal, serStr]
  | num n =>
    by_cases hn : n < 0
    · refine ⟨45, natDigits n.natAbs, ?_, by omega, by omega, by omega⟩
      simp [serVal, serInt, hn]
    · obtain ⟨c0, tl, hd, h1, h2⟩ := natDigits_cons n.toNat
      refine ⟨c0, tl, ?_, by omega, by omega, by omega⟩
      simp [serVal, serInt, hn, hd]
  | bool b =>
    cases b
    · exact ⟨102, [97, 108, 115, 101], by simp [serVal], by omega, by omega, by omega⟩
    · exact ⟨116, [114, 117, 101], by simp [serVal], by omega, by omega, by omega⟩
  | null => exact ⟨110, [117, 108, 108], by simp [serVal], by omega, by omega, by omega⟩
  | arr xs =>
    exact ⟨91, serElems xs ++ [93], by simp [serVal], by omega, by omega, by omega⟩
  | obj fs =>
    exact ⟨123, serFields fs ++ [125], by simp [serVal], by omega, by omega, by omega⟩

mutual

/-- The parser-fuel bound of a value is at most its serialized size. -/
theorem jsize_le_serVal (v : SJson) : jsize v ≤ (serVal v).length := by
  cases v with
  | str bs => simp [jsize, serVal, serStr]
  | num n =>
    by_cases hn : n < 0
    · simp [jsize, serVal, serInt, hn]
    · have h1 : (natDigits n.toNat).length ≠ 0 := by
        simp [natDigits_ne_nil n.toNat]
      simp [jsize, serVal, serInt, hn]
      omega
  | bool b => cases b <;> simp [jsize, serVal]
  | null => simp [jsize, serVal]
  | arr xs =>
    have h1 := jsizeElems_le_serElems xs
    simp [jsize, serVal]
    omega
  | obj fs =>
    have h1 := jsizeFields_le_serFields fs
    simp [jsize, serVal]
    omega

/-- The parser-fuel bound of array elements is at most their serialized
size plus one. -/
theorem jsizeElems_le_serElems (xs : List SJson) :
    jsizeElems xs ≤ (serElems xs).length + 1 := by
  match xs with
  | [] => simp [jsizeElems, serElems]
  | [x] =>
    have h1 := jsize_le_serVal x
    simp [jsizeElems, serElems]
    omega
  | x :: y :: xs =>
    have h1 := jsize_le_serVal x
    have h2 := jsizeElems_le_serElems (y :: xs)
    simp [jsizeElems, serElems]
    simp [jsizeElems] at h2
    omega

/-- The parser-fuel bound of object fields is at most their serialized
size plus one. -/
theorem jsizeFields_le_serFields (fs : List (List Nat × SJson)) :
    jsizeFields fs ≤ (serFields fs).length + 1 := by
  match fs with
  | [] => simp [jsizeFields, serFields]
  | [(k, v)] =>
    have h1 := jsize_le_serVal v
    simp [jsizeFields, serFields, serStr]
    omega
  | (k, v) :: (k2, v2) :: fs =>
    have h1 := jsize_le_serVal v
    have h2 := jsizeFields_le_serFields ((k2, v2) :: fs)
    simp [jsizeFields, serFields, serStr]
    simp [jsizeFields] at h2
    omega

end

/-- One-step unfolding of the value parser on a nonempty buffer with
fuel available. -/
theorem parseVal_succ (fuel : Nat) (c : Nat) (bs : List Nat) :
    parseVal (fuel + 1) (c :: bs) =
    (if c = 116 then
      match bs with
      | 114 :: 117 :: 101 :: rest => some (SJson.bool true, rest)
      | _ => none
    else if c = 102 then
      match bs with
      | 97 :: 108 :: 115 :: 101 :: rest => some (SJson.bool false, rest)
      | _ => none
    else if c = 110 then
      match bs with
      | 117 :: 108 :: 108 :: rest => some (SJson.null, rest)
      | _ => none
    else if c = 34 then
      match parseStrBody bs with
      | some (s, rest) => some (SJson.str s, rest)
      | none => none
    else if c = 45 then
      match bs with
      | d :: _ =>
        if 48 ≤ d ∧ d ≤ 57 then
          let p := parseDigitsAux bs 0
          some (SJson.num (-(p.1 : Int)), p.2)
        else none
      | [] => none
    else if c = 91 then
      match bs with
      | [] => none
      | b :: bs2 =>
        if b = 93 then some (SJson.arr [], bs2)
        else
          match parseElems fuel (b :: bs2) with
          | some (xs, rest) => some (SJson.arr xs, rest)
          | none => none
    else if c = 123 then
      match bs with
      | [] => none
      | b :: bs2 =>
        if b = 125 then some (SJson.obj [], bs2)
        else
          match parseFields fuel (b :: bs2) with
          | some (fs, rest) => some (SJson.obj fs, rest)
          | none => none
    else if 48 ≤ c ∧ c ≤ 57 then
      let p := parseDigitsAux (c :: bs) 0
      some (SJson.num (p.1 : Int), p.2)
    else none) := rfl

/-- One-step unfolding of the element parser with fuel available. -/
theorem parseElems_succ (fuel : Nat) (bs : List Nat) :
    parseElems (fuel + 1) bs =
    (match parseVal fuel bs with
    | none => none
    | some (v, rest) =>
      match rest with
      | 44 :: r2 =>
        match parseElems fuel r2 with
        | some (xs, r3) => some (v :: xs, r3)
        | none => none
      | 93 :: r2 => some ([v], r2)
      | _ => none) := rfl

/-- One-step unfolding of the field parser with fuel available. -/
theorem parseFields_succ (fuel : Nat) (bs : List Nat) :
    parseFields (fuel + 1) bs =
    (match bs with
    | 34 :: bs2 =>
      match parseStrBody bs2 with
      | none => none
      | some (k, rest) =>
        match rest with
        | 58 :: rest2 =>
          match parseVal fuel rest2 with
          | none => none
          | some (v, rest3) =>
            match rest3 with
            | 44 :: r4 =>
              match parseFields fuel r4 with
              | some (fs, r5) => some ((k, v) :: fs, r5)
              | none => none
            | 125 :: r4 => some ([(k, v)], r4)
            | _ => none
        | _ => none
    | _ => none) := rfl

/-- A nonempty element list serializes to the first value followed by a
tail. -/
theorem serElems_cons_ex (x : SJson) (xs : List SJson) :
    ∃ t, serElems (x :: xs) = serVal x ++ t := by
  cases xs with
  | nil => exact ⟨[], by simp [serElems]⟩
  | cons y ys => exact ⟨44 :: serElems (y :: ys), by simp [serElems]⟩

/-- A nonempty field list serializes to the first key string followed by
a tail. -/
theorem serFields_cons_ex (k : List Nat) (v : SJson) (fs : List (List Nat × SJson)) :
    ∃ t, serFields ((k, v) :: fs) = serStr k ++ t := by
  cases fs with
  | nil => exact ⟨58 :: serVal v, by simp [serFields]⟩
  | cons f fs2 =>
    obtain ⟨k2, v2⟩ := f
    exact ⟨(58 :: serVal v) ++ 44 :: serFields ((k2, v2) :: fs2), by simp [serFields]⟩

mutual

/-- Round trip of the JSON value codec: the parser recovers a serialized
well-formed value and the continuation, with any fuel at least the size
bound, provided the continuation does not start with a digit when the
value is a number (the serializer never puts a digit there). -/
theorem parseVal_serVal (v : SJson) : ∀ (fuel : Nat) (rest : List Nat),
    wfVal v = true → jsize v ≤ fuel →
    (∀ n c cs, v = SJson.num n → rest = c :: cs → ¬(48 ≤ c ∧ c ≤ 57)) →
    parseVal fuel (serVal v ++ rest) = some (v, rest) := by
  intro fuel rest hwf hfuel hnum
  cases v with
  | str bs =>
    obtain ⟨f, rfl⟩ : ∃ f, fuel = f + 1 := ⟨fuel - 1, by simp [jsize] at hfuel; omega⟩
    have hlt : ∀ c ∈ bs, c < 256 := by
      simp only [wfVal, List.all_eq_true, decide_eq_true_eq] at hwf
      exact hwf
    have hser : serVal (SJson.str bs) ++ rest = 34 :: (escBytes bs ++ 34 :: rest) := by
      simp [serVal, serStr]
    rw [hser, parseVal_succ]
    rw [if_neg (by decide), if_neg (by decide), if_neg (by decide), if_pos rfl,
        parseStrBody_escBytes bs rest hlt]
  | num n =>
    obtain ⟨f, rfl⟩ : ∃ f, fuel = f + 1 := ⟨fuel - 1, by simp [jsize] at hfuel; omega⟩
    have hguard : ∀ c cs, rest = c :: cs → ¬(48 ≤ c ∧ c ≤ 57) :=
      fun c cs h => hnum n c cs rfl h
    by_cases hn : n < 0
    · have hser : serVal (SJson.num n) ++ rest = 45 :: (natDigits n.natAbs ++ rest) := by
        simp [serVal, serInt, hn]
      rw [hser, parseVal_succ]
      rw [if_neg (by decide), if_neg (by decide), if_neg (by decide), if_neg (by decide),
          if_pos rfl]
      obtain ⟨d, tl, hd, hd48, hd57⟩ := natDigits_cons n.natAbs
      rw [hd, List.cons_append]
      dsimp only
      rw [if_pos ⟨hd48, hd57⟩]
      have hpd : parseDigitsAux (d :: (tl ++ rest)) 0 = (n.natAbs, rest) := by
        rw [← List.cons_append, ← hd, parseDigitsAux_natDigits,
            parseDigitsAux_stop rest _ hguard]
        simp
      rw [hpd]
      dsimp only
      have hnn : -((n.natAbs : Int)) = n := by omega
      rw [hnn]
    · have hser : serVal (SJson.num n) ++ rest = natDigits n.toNat ++ rest := by
        simp [serVal, serInt, hn]
      obtain ⟨d, tl, hd, hd48, hd57⟩ := natDigits_cons n.toNat
      rw [hser, hd, List.cons_append, parseVal_succ]
      have e116 : ¬(d = 116) := by omega
      have e102 : ¬(d = 102) := by omega
      have e110 : ¬(d = 110) := by omega
      have e34 : ¬(d = 34) := by omega
      have e45 : ¬(d = 45) := by omega
      have e91 : ¬(d = 91) := by omega
      have e123 : ¬(d = 123) := by omega
      rw [if_neg e116, if_neg e102, if_neg e110, if_neg e34, if_neg e45, if_neg e91,
          if_neg e123, if_pos ⟨hd48, hd57⟩]
      have hpd : parseDigitsAux (d :: (tl ++ rest)) 0 = (n.toNat, rest) := by
        rw [← List.cons_append, ← hd, parseDigitsAux_natDigits,
            parseDigitsAux_stop rest _ hguard]
        simp
      rw [hpd]
      dsimp only
      have hnn : ((n.toNat : Int)) = n := by omega
      rw [hnn]
  | bool b =>
    obtain ⟨f, rfl⟩ : ∃ f, fuel = f + 1 := ⟨fuel - 1, by simp [jsize] at hfuel; omega⟩
    cases b
    · have hser : serVal (SJson.bool false) ++ rest = 102 :: 97 :: 108 :: 115 :: 101 :: rest := by
        simp [serVal]
      rw [hser, parseVal_succ]
      rw [if_neg (by decide), if_pos rfl]
    · have hser : serVal (SJson.bool true) ++ rest = 116 :: 114 :: 117 :: 101 :: rest := by
        simp [serVal]
      rw [hser, parseVal_succ]
      rw [if_pos rfl]
  | null =>
    obtain ⟨f, rfl⟩ : ∃ f, fuel = f + 1 := ⟨fuel - 1, by simp [jsize] at hfuel; omega⟩
    have hser : serVal SJson.null ++ rest = 110 :: 117 :: 108 :: 108 :: rest := by
      simp [serVal]
    rw [hser, parseVal_succ]
    rw [if_neg (by decide), if_neg (by decide), if_pos rfl]
  | arr xs =>
    obtain ⟨f, rfl⟩ : ∃ f, fuel = f + 1 := ⟨fuel - 1, by simp [jsize] at hfuel; omega⟩
    have hser : serVal (SJson.arr xs) ++ rest = 91 :: (serElems xs ++ 93 :: rest) := by
      simp [serVal]
    rw [hser, parseVal_succ]
    rw [if_neg (by decide), if_neg (by decide), if_neg (by decide), if_neg (by decide),
        if_neg (by decide), if_pos rfl]
    cases xs with
    | nil =>
      rw [show serElems ([] : List SJson) ++ 93 :: rest = 93 :: rest from by simp [serElems]]
      dsimp only
      rw [if_pos rfl]
    | cons x xs2 =>
      have hwfE : wfElems (x :: xs2) = true := by simpa [wfVal] using hwf
      have hfE : jsizeElems (x :: xs2) ≤ f := by
        simp only [jsize] at hfuel; omega
      obtain ⟨t, ht⟩ := serElems_cons_ex x xs2
      obtain ⟨c0, tl0, hc0, h93, h125, h44⟩ := serVal_head x
      have hE : serElems (x :: xs2) ++ 93 :: rest = c0 :: (tl0 ++ t ++ 93 :: rest) := by
        rw [ht, hc0]; simp
      rw [hE]
      dsimp only
      rw [if_neg h93, ← hE, parseElems_serElems (x :: xs2) f rest hwfE hfE (by simp)]
  | obj fs =>
    obtain ⟨f, rfl⟩ : ∃ f, fuel = f + 1 := ⟨fuel - 1, by simp [jsize] at hfuel; omega⟩
    have hser : serVal (SJson.obj fs) ++ rest = 123 :: (serFields fs ++ 125 :: rest) := by
      simp [serVal]
    rw [hser, parseVal_succ]
    rw [if_neg (by decide), if_neg (by decide), if_neg (by decide), if_neg (by decide),
        if_neg (by decide), if_neg (by decide), if_pos rfl]
    cases fs with
    | nil =>
      rw [show serFields ([] : List (List Nat × SJson)) ++ 125 :: rest = 125 :: rest from by
        simp [serFields]]
      dsimp only
      rw [if_pos rfl]
    | cons kv fs2 =>
      obtain ⟨k, w⟩ := kv
      have hwfF : wfFields ((k, w) :: fs2) = true := by
        simp only [wfVal, Bool.and_eq_true] at hwf
        exact hwf.1
      have hfF : jsizeFields ((k, w) :: fs2) ≤ f := by
        simp only [jsize] at hfuel; omega
      obtain ⟨t, ht⟩ := serFields_cons_ex k w fs2
      have hE : serFields ((k, w) :: fs2) ++ 125 :: rest
          = 34 :: (escBytes k ++ [34] ++ t ++ 125 :: rest) := by
        rw [ht]; simp [serStr]
      rw [hE]
      dsimp only
      rw [if_neg (by decide), ← hE,
          parseFields_serFields ((k, w) :: fs2) f rest hwfF hfF (by simp)]

/-- Round trip for serialized array elements up to the closing
bracket. -/
theorem parseElems_serElems (xs : List SJson) : ∀ (fuel : Nat) (rest : List Nat),
    wfElems xs = true → jsizeElems xs ≤ fuel → xs ≠ [] →
    parseElems fuel (serElems xs ++ 93 :: rest) = some (xs, rest) := by
  intro fuel rest hwf hfuel hne
  cases xs with
  | nil => exact absurd rfl hne
  | cons x xs2 =>
    obtain ⟨f, rfl⟩ : ∃ f, fuel = f + 1 := ⟨fuel - 1, by simp [jsizeElems] at hfuel; omega⟩
    have hwfx : wfVal x = true := by
      simp only [wfElems, Bool.and_eq_true] at hwf
      exact hwf.1
    have hwf2 : wfElems xs2 = true := by
      simp only [wfElems, Bool.and_eq_true] at hwf
      exact hwf.2
    have hfx : jsize x ≤ f := by
      simp only [jsizeElems] at hfuel; omega
    rw [parseElems_succ]
    cases xs2 with
    | nil =>
      rw [show serElems [x] ++ 93 :: rest = serVal x ++ 93 :: rest from by simp [serElems],
          parseVal_serVal x f (93 :: rest) hwfx hfx
            (by intro n c cs hv hc; injection hc with h1 h2; omega)]
    | cons y ys =>
      have hf2 : jsizeElems (y :: ys) ≤ f := by
        simp only [jsizeElems] at hfuel ⊢; omega
      have hser : serElems (x :: y :: ys) ++ 93 :: rest
          = serVal x ++ 44 :: (serElems (y :: ys) ++ 93 :: rest) := by
        simp [serElems]
      rw [hser, parseVal_serVal x f _ hwfx hfx
            (by intro n c cs hv hc; injection hc with h1 h2; omega)]
      dsimp only
      rw [parseElems_serElems (y :: ys) f rest hwf2 hf2 (by simp)]

/-- Round trip for serialized object fields up to the closing brace. -/
theorem parseFields_serFields (fs : List (List Nat × SJson)) : ∀ (fuel : Nat) (rest : List Nat),
    wfFields fs = true → jsizeFields fs ≤ fuel → fs ≠ [] →
    parseFields fuel (serFields fs ++ 125 :: rest) = some (fs, rest) := by
  intro fuel rest hwf hfuel hne
  cases fs with
  | nil => exact absurd rfl hne
  | cons kv fs2 =>
    obtain ⟨k, v⟩ := kv
    obtain ⟨f, rfl⟩ : ∃ f, fuel = f + 1 := ⟨fuel - 1, by simp [jsizeFields] at hfuel; omega⟩
    have hks : ∀ c ∈ k, c < 256 := by
      simp only [wfFields, Bool.and_eq_true, List.all_eq_true, decide_eq_true_eq] at hwf
      exact hwf.1.1
    have hwfv : wfVal v = true := by
      simp only [wfFields, Bool.and_eq_true] at hwf
      exact hwf.1.2
    have hwf2 : wfFields fs2 = true := by
      simp only [wfFields, Bool.and_eq_true] at hwf
      exact hwf.2
    have hfv : jsize v ≤ f := by
      simp only [jsizeFields] at hfuel; omega
    rw [parseFields_succ]
    cases fs2 with
    | nil =>
      have hser : serFields [(k, v)] ++ 125 :: rest
          = 34 :: (escBytes k ++ 34 :: (58 :: (serVal v ++ 125 :: rest))) := by
        simp [serFields, serStr]
      rw [hser]
      dsimp only
      rw [parseStrBody_escBytes k _ hks]
      dsimp only
      rw [parseVal_serVal v f (125 :: rest) hwfv hfv
            (by intro n c cs hv hc; injection hc with h1 h2; omega)]
    | cons kv2 fs3 =>
      obtain ⟨k2, v2⟩ := kv2
      have hf2 : jsizeFields ((k2, v2) :: fs3) ≤ f := by
        simp only [jsizeFields] at hfuel ⊢; omega
      have hser : serFields ((k, v) :: (k2, v2) :: fs3) ++ 125 :: rest
          = 34 :: (escBytes k ++ 34 ::
              (58 :: (serVal v ++ 44 :: (serFields ((k2, v2) :: fs3) ++ 125 :: rest)))) := by
        simp [serFields, serStr]
      rw [hser]
      dsimp only
      rw [parseStrBody_escBytes k _ hks]
      dsimp only
      rw [parseVal_serVal v f _ hwfv hfv
            (by intro n c cs hv hc; injection hc with h1 h2; omega)]
      dsimp only
      rw [parseFields_serFields ((k2, v2) :: fs3) f rest hwf2 hf2 (by simp)]

end

/-- The frame extractor recovers exactly the body of one encoded frame
from its own buffer, leaving nothing: the header scan stops at the first
body byte, and the length matches. -/
theorem readBuffer_frame (body : List Nat) (hne : 0 < body.length)
    (hbound : (body.length : Int) < 9223372036854775808)
    (hguard : ∀ c rest', body = c :: rest' → ¬(48 ≤ c ∧ c ≤ 57) ∧ c ≠ 10 ∧ c ≠ 13) :
    readBuffer (encodeFrame body) = some (body, []) := by
  unfold readBuffer
  rw [checkMessage_frame body hne hbound hguard]
  dsimp only
  unfold encodeFrame
  rw [List.drop_left]
  have h1 : ((body.length : Int)).toNat = body.length := Int.toNat_natCast _
  rw [h1, List.take_length]
  have h2 : (natDigits body.length ++ body).drop ((natDigits body.length).length + body.length)
      = [] := by
    apply List.drop_eq_nil_of_le
    simp
  rw [h2]

/-- C5: frame round-trip.  Encoding a Message (serialize the JSON object,
prefix the ASCII decimal byte length with no separator or padding) and
then extracting the frame and JSON-decoding the body recovers the
original Message exactly, for every well-formed object body whose encoded
length fits a 64-bit int. -/
theorem frame_roundtrip (fs : List (List Nat × SJson))
    (hwf : wfVal (SJson.obj fs) = true)
    (hbound : ((serVal (SJson.obj fs)).length : Int) < 9223372036854775808) :
    decodeFrame (writeFrame (SJson.obj fs)) = some (SJson.obj fs) := by
  unfold writeFrame decodeFrame
  have hne : 0 < (serVal (SJson.obj fs)).length := by
    obtain ⟨c0, tl, hc, h1, h2, h3⟩ := serVal_head (SJson.obj fs)
    rw [hc]
    simp
  have hguard : ∀ c rest', serVal (SJson.obj fs) = c :: rest' →
      ¬(48 ≤ c ∧ c ≤ 57) ∧ c ≠ 10 ∧ c ≠ 13 := by
    intro c rest' h
    have hob : serVal (SJson.obj fs) = 123 :: (serFields fs ++ [125]) := by simp [serVal]
    rw [hob] at h
    injection h with h1 h2
    omega
  rw [readBuffer_frame (serVal (SJson.obj fs)) hne hbound hguard]
  dsimp only
  have hp := parseVal_serVal (SJson.obj fs) (serVal (SJson.obj fs)).length []
    hwf (jsize_le_serVal _) (by intro n c cs h hc; exact absurd hc (by simp))
  rw [List.append_nil] at hp
  rw [hp]

/-- Witness for C5 at the concrete one-field object with key `a` and
value `true`. -/
theorem frame_roundtrip_witness :
    wfVal (SJson.obj [([97], SJson.bool true)]) = true ∧
    ((serVal (SJson.obj [([97], SJson.bool true)])).length : Int) < 9223372036854775808 ∧
    decodeFrame (writeFrame (SJson.obj [([97], SJson.bool true)])) =
      some (SJson.obj [([97], SJson.bool true)]) :=
  ⟨rfl, by decide, frame_roundtrip [([97], SJson.bool true)] rfl (by decide)⟩

end DZ
